import Mathlib

/-!
# Rate-matching control engine of the ASRC demo

A shallow embedding of `examples/asrc_demo/src/rate_server.c` and of
`test/asrc_sim/src/common/buffer/avg_buffer_level.c`, followed by theorems about the
fixed-point divider, the bucketed I2S rate estimator, the buffer-level tracker and one
iteration of the rate-server loop.

Conventions of the embedding.

* Unsigned machine words are natural numbers reduced `% 2 ^ 32` or `% 2 ^ 64` wherever the C
  code computes in `uint32_t` or `uint64_t`.
* Signed machine words are integers; `wrapInt32` and `wrapInt64` give the two's-complement
  result of an `int`/`int64_t` operation (what the xcore and x86 targets compute).
* A shift is the mathematical shift followed by the truncation to the operand width; a
  negative shift count is read as zero. In C a shift by a negative count or by the operand
  width or more is undefined: the theorems that state the result of a shift keep its count
  below the width.
* The portable branch of every `#if __xcore__` is the one embedded: the long division is the
  `uint64_t` division of C.
* The mantissa of `float_s32_t` is held as the bit pattern the code reads through its
  `(uint32_t)` casts.
* A division by a zero divisor mantissa is undefined in C (the program traps); the model is
  total and gives the quotient 0 there. Every theorem about a divider assumes non-zero
  mantissas, and `determine_float_div_divisor` names the divisor the estimator hands over.
-/

namespace RateServer

/-! ## Machine integers -/

/-- Truncation to an unsigned 32-bit word. -/
def u32 (x : Nat) : Nat := x % 2 ^ 32

/-- Truncation to an unsigned 64-bit word. -/
def u64 (x : Nat) : Nat := x % 2 ^ 64

/-- Two's-complement value of an integer seen as a signed 32-bit word. -/
def wrapInt32 (x : Int) : Int := (x + 2 ^ 31) % 2 ^ 32 - 2 ^ 31

/-- Two's-complement value of an integer seen as a signed 64-bit word. -/
def wrapInt64 (x : Int) : Int := (x + 2 ^ 63) % 2 ^ 64 - 2 ^ 63

/-- Conversion of a signed 64-bit value to `uint64_t`. -/
def toU64 (x : Int) : Nat := (x % 2 ^ 64).toNat

/-- Leading zeros among the low `n` bits of `x`. -/
def clzAux : Nat → Nat → Nat
  | 0, _ => 0
  | n + 1, x => if x < 2 ^ n then clzAux n x + 1 else 0

/-- The `clz` instruction: number of leading zero bits of a 32-bit word (32 for zero). -/
def clz (x : Nat) : Nat := clzAux 32 (u32 x)

/-! ## FixedFloat values and the two dividers -/

/-- Software float `float_s32_t`, of value `mant * 2 ^ exp`. Its declaration is in a library
header outside the sources: the mantissa is the 32-bit pattern the code reads through its
`(uint32_t)` casts, the exponent is an `int`. -/
structure float_s32_t where
  mant : Nat
  exp : Int
deriving DecidableEq

/-- Software float `float_u64_t` with a 64-bit mantissa (rate_server.c, lines 406-410). -/
structure float_u64_t where
  mant : Nat
  exp : Int
deriving DecidableEq

/-- The 32-bit divider `float_div` (rate_server.c, lines 339-376). -/
def float_div (dividend divisor : float_s32_t) : float_s32_t :=
  let dividend_hr := clz dividend.mant
  let divisor_hr := clz divisor.mant
  let dividend_exp := wrapInt32 (dividend.exp - dividend_hr)
  let divisor_exp := wrapInt32 (divisor.exp - divisor_hr)
  let h_dividend := u64 (u32 dividend.mant <<< dividend_hr)
  let h_divisor := u32 (u32 divisor.mant <<< divisor_hr)
  let lhs : Nat := if h_dividend > h_divisor then 31 else 32
  let normalised_dividend := u64 (h_dividend <<< lhs)
  let quotient := normalised_dividend / h_divisor
  { mant := u32 quotient, exp := wrapInt32 (dividend_exp - divisor_exp - lhs) }

/-- The fixed-point output of the 32-bit divider (rate_server.c, lines 378-394). A shift
count of 32 or more is undefined in C; the model shifts mathematically there. -/
def float_div_fixed_output_q_format (dividend divisor : float_s32_t)
    (output_q_format : Int) : Nat :=
  let op_q := wrapInt32 (-output_q_format)
  let res := float_div dividend divisor
  if res.exp < op_q then
    let rsh := wrapInt32 (op_q - res.exp)
    u32 ((u32 res.mant >>> rsh.toNat) + ((u32 res.mant >>> (rsh - 1).toNat) &&& 1))
  else
    let lsh := wrapInt32 (res.exp - op_q)
    u32 (u32 res.mant <<< lsh.toNat)

/-- Sum of the first `array_length` entries in `uint32_t` arithmetic
(rate_server.c, lines 396-404). -/
def sum_array (array_to_sum : List Nat) (array_length : Nat) : Nat :=
  (array_to_sum.take array_length).foldl (fun acc x => u32 (acc + x)) 0

/-- The 64-bit divider `float_div_u64` (rate_server.c, lines 412-437). -/
def float_div_u64 (dividend divisor : float_s32_t) : float_u64_t :=
  let dividend_hr := clz dividend.mant
  let divisor_hr := clz divisor.mant
  let dividend_exp := wrapInt32 (dividend.exp - dividend_hr)
  let divisor_exp := wrapInt32 (divisor.exp - divisor_hr)
  let h_dividend := u64 (u32 dividend.mant <<< dividend_hr)
  let h_divisor := u32 (u32 divisor.mant <<< divisor_hr)
  let lhs : Nat := 32
  let quotient := u64 (h_dividend <<< lhs) / h_divisor
  { mant := quotient, exp := wrapInt32 (dividend_exp - divisor_exp - lhs) }

/-- The fixed-point output of the 64-bit divider (rate_server.c, lines 439-455). A shift
count of 64 or more is undefined in C; the model shifts mathematically there. -/
def float_div_u64_fixed_output_q_format (dividend divisor : float_s32_t)
    (output_q_format : Int) : Nat :=
  let op_q := wrapInt32 (-output_q_format)
  let res := float_div_u64 dividend divisor
  if res.exp < op_q then
    let rsh := wrapInt32 (op_q - res.exp)
    u64 ((u64 res.mant >>> rsh.toNat) + ((u64 res.mant >>> (rsh - 1).toNat) &&& 1))
  else
    let lsh := wrapInt32 (res.exp - op_q)
    u64 (u64 res.mant <<< lsh.toNat)

/-! ## Reading the dividers as numbers -/

/-- Semantic value of a FixedFloat: `mant * 2 ^ exp`. -/
def value (x : float_s32_t) : ℚ := (x.mant : ℚ) * (2 : ℚ) ^ x.exp

/-- Exponents and output formats for which no `int` computation of the dividers overflows. -/
def exp_in_range (e : Int) : Prop := -2 ^ 29 ≤ e ∧ e ≤ 2 ^ 29

instance (e : Int) : Decidable (exp_in_range e) := by
  unfold exp_in_range
  infer_instance

/-- Normalised mantissa: the mantissa shifted left by its leading-zero count. -/
def normalised (x : Nat) : Nat := x * 2 ^ clz x

/-- The exact quotient of the normalised mantissas, scaled by `2 ^ 32`. -/
def exact_mant (a b : float_s32_t) : ℚ :=
  (normalised a.mant : ℚ) * 2 ^ 32 / (normalised b.mant : ℚ)

/-! ## The I2S rate estimator -/

/-- The constant `REF_CLOCK_TICKS_PER_SECOND`. -/
def REF_CLOCK_TICKS_PER_SECOND : Nat := 100000000

/-- The constant `TOTAL_STORED_AVG_I2S_RATE`. -/
def TOTAL_STORED_AVG_I2S_RATE : Nat := 16

/-- The function-local statics of `determine_avg_I2S_rate_from_driver`
(rate_server.c, lines 81-89). The two arrays are lists of length 16. -/
structure avg_I2S_rate_statics where
  data_lengths : List Nat
  time_buckets : List Nat
  current_data_bucket_size : Nat
  buckets_full : Bool
  times_overflowed : Nat
  previous_result : float_s32_t
  prev_nominal_sampling_rate : Nat
  counter : Nat
  timespan_current_bucket : Nat
deriving DecidableEq

/-- What the I2S driver reports in one call: `rtos_i2s_get_current_rate_info` and
`rtos_i2s_get_nominal_sampling_rate`. -/
structure i2s_rate_readout where
  timespan : Nat
  num_samples : Nat
  nominal_sampling_rate : Nat
deriving DecidableEq

/-- The statics at program start (zero-initialised). -/
def avg_I2S_rate_startup : avg_I2S_rate_statics :=
  { data_lengths := List.replicate 16 0
    time_buckets := List.replicate 16 0
    current_data_bucket_size := 0
    buckets_full := false
    times_overflowed := 0
    previous_result := { mant := 0, exp := 0 }
    prev_nominal_sampling_rate := 0
    counter := 0
    timespan_current_bucket := 0 }

/-- One call of `determine_avg_I2S_rate_from_driver` (rate_server.c, lines 78-188): the
statics before the call and the driver readout give the statics after it and the returned
rate. A bucket write at an index outside the array, which the code excludes by keeping
`times_overflowed < 16` until the ring is full, leaves the list unchanged. When the divisor
handed to `float_div` is zero the C code traps; the model goes on with the quotient 0. -/
def determine_avg_I2S_rate_from_driver (st : avg_I2S_rate_statics) (drv : i2s_rate_readout) :
    avg_I2S_rate_statics × float_s32_t :=
  let timespan := drv.timespan
  let num_samples := drv.num_samples
  let i2s_nominal_sampling_rate := drv.nominal_sampling_rate
  if i2s_nominal_sampling_rate = 0 then
    (st, { mant := 0, exp := 0 })
  else if i2s_nominal_sampling_rate ≠ st.prev_nominal_sampling_rate then
    let a : float_s32_t := { mant := i2s_nominal_sampling_rate, exp := 0 }
    let b : float_s32_t := { mant := REF_CLOCK_TICKS_PER_SECOND, exp := 0 }
    let rate := float_div a b
    ({ data_lengths := List.replicate TOTAL_STORED_AVG_I2S_RATE 0
       time_buckets := List.replicate TOTAL_STORED_AVG_I2S_RATE 0
       current_data_bucket_size := 0
       buckets_full := false
       times_overflowed := 0
       previous_result := rate
       prev_nominal_sampling_rate := i2s_nominal_sampling_rate
       counter := 0
       timespan_current_bucket := 0 }, rate)
  else if timespan = 0 then
    let a : float_s32_t := { mant := st.prev_nominal_sampling_rate, exp := 0 }
    let b : float_s32_t := { mant := REF_CLOCK_TICKS_PER_SECOND, exp := 0 }
    let rate := float_div a b
    ({ st with previous_result := rate }, rate)
  else
    let counter := u32 (st.counter + 1)
    let current_data_bucket_size := u32 (st.current_data_bucket_size + num_samples)
    let timespan_current_bucket := u32 (st.timespan_current_bucket + timespan)
    let total_data_intermed :=
      u32 (current_data_bucket_size + sum_array st.data_lengths TOTAL_STORED_AVG_I2S_RATE)
    let total_timespan :=
      u32 (timespan_current_bucket + sum_array st.time_buckets TOTAL_STORED_AVG_I2S_RATE)
    let data_per_sample :=
      float_div { mant := total_data_intermed, exp := 0 } { mant := total_timespan, exp := 0 }
    let result := data_per_sample
    if counter ≥ 16 then
      if st.buckets_full then
        let oldest_bucket := st.times_overflowed % TOTAL_STORED_AVG_I2S_RATE
        ({ st with
            time_buckets := st.time_buckets.set oldest_bucket timespan_current_bucket
            data_lengths := st.data_lengths.set oldest_bucket current_data_bucket_size
            current_data_bucket_size := 0
            counter := 0
            timespan_current_bucket := 0
            times_overflowed := u32 (st.times_overflowed + 1)
            previous_result := result }, result)
      else
        let times_overflowed := u32 (st.times_overflowed + 1)
        ({ st with
            time_buckets := st.time_buckets.set st.times_overflowed timespan_current_bucket
            data_lengths := st.data_lengths.set st.times_overflowed current_data_bucket_size
            current_data_bucket_size := 0
            counter := 0
            timespan_current_bucket := 0
            times_overflowed := times_overflowed
            buckets_full := if times_overflowed = TOTAL_STORED_AVG_I2S_RATE then true
                            else st.buckets_full
            previous_result := result }, result)
    else
      ({ st with
          counter := counter
          current_data_bucket_size := current_data_bucket_size
          timespan_current_bucket := timespan_current_bucket
          previous_result := result }, result)

/-- The estimator called once per readout of the list: the statics after the last call and
the rates returned, in call order. -/
def run_estimator (st : avg_I2S_rate_statics) :
    List i2s_rate_readout → avg_I2S_rate_statics × List float_s32_t
  | [] => (st, [])
  | d :: ds =>
    let r := determine_avg_I2S_rate_from_driver st d
    let rest := run_estimator r.1 ds
    (rest.1, r.2 :: rest.2)

/-! ## The buffer-level tracker -/

/-- Modelled from the spec: `buffer_calc_state_t`, whose declaration (avg_buffer_level.h) is
not among the sources. The fields are the ones `avg_buffer_level.c` reads and writes, which
are the ones section 3 of the specification lists; their widths are not given, so they are
integers without a range. -/
structure buffer_calc_state_t where
  window_len_log2 : Int
  buffer_level_stable_threshold : Int
  error_accum : Int
  count : Int
  flag_first_done : Bool
  flag_prev_avg_valid : Bool
  flag_stable_avg : Bool
  prev_avg_buffer_level : Int
  avg_buffer_level : Int
  stable_avg_level : Int
  buffer_level_stable_count : Int
deriving DecidableEq

/-- The initialiser `init_calc_buffer_level_state` (avg_buffer_level.c, lines 8-13): `memset`
to zero, then the two configuration fields. -/
def init_calc_buffer_level_state (window_len_log2 buffer_level_stable_threshold : Int) :
    buffer_calc_state_t :=
  { window_len_log2 := window_len_log2
    buffer_level_stable_threshold := buffer_level_stable_threshold
    error_accum := 0
    count := 0
    flag_first_done := false
    flag_prev_avg_valid := false
    flag_stable_avg := false
    prev_avg_buffer_level := 0
    avg_buffer_level := 0
    stable_avg_level := 0
    buffer_level_stable_count := 0 }

/-- The tracker update `calc_avg_buffer_level` (avg_buffer_level.c, lines 15-57). The window
length `1 << window_len_log2` is `2 ^ window_len_log2`, `>>` on the signed accumulator is the
arithmetic shift and `/ 2` truncates toward zero. -/
def calc_avg_buffer_level (state : buffer_calc_state_t) (current_level : Int) (reset : Bool) :
    buffer_calc_state_t :=
  let s0 :=
    if reset = true then
      init_calc_buffer_level_state state.window_len_log2 state.buffer_level_stable_threshold
    else state
  let s1 := { s0 with
    error_accum := s0.error_accum + current_level
    count := s0.count + 1 }
  if s1.count = 2 ^ s1.window_len_log2.toNat then
    let s2 := if s1.flag_first_done = true then { s1 with flag_prev_avg_valid := true } else s1
    let s3 := { s2 with prev_avg_buffer_level := s2.avg_buffer_level }
    let s4 := { s3 with avg_buffer_level := s3.error_accum >>> s3.window_len_log2.toNat }
    let s5 :=
      if s4.flag_prev_avg_valid = true then
        let s4a := { s4 with
          avg_buffer_level := (s4.avg_buffer_level + s4.prev_avg_buffer_level).tdiv 2 }
        if s4a.flag_stable_avg = false then
          let s4b := { s4a with buffer_level_stable_count := s4a.buffer_level_stable_count + 1 }
          if s4b.buffer_level_stable_count > s4b.buffer_level_stable_threshold then
            { s4b with stable_avg_level := s4b.avg_buffer_level, flag_stable_avg := true }
          else s4b
        else s4a
      else s4
    let s6 := { s5 with count := 0, error_accum := 0 }
    if s6.flag_first_done = false then { s6 with flag_first_done := true } else s6
  else s1

/-- The tracker after a run of levels, all fed with `reset = false`. -/
def feed_levels (state : buffer_calc_state_t) (levels : List Int) : buffer_calc_state_t :=
  levels.foldl (fun s l => calc_avg_buffer_level s l false) state

/-- The wrapper `init_calc_i2s_buffer_level_state` (rate_server.c, lines 65-71): the value it
gives `g_i2s_send_buf_state`. -/
def init_calc_i2s_buffer_level_state : buffer_calc_state_t :=
  let window_size_log2 : Int := 10
  init_calc_buffer_level_state window_size_log2 8

/-! ## One iteration of the rate server -/

/-- Modelled from the spec: the inbound message `usb_to_i2s_rate_info_t`, whose declaration
(rate_server.h) is not among the sources; section 6 of the specification gives its fields,
`buffer_based_correction` being a signed 64-bit value. -/
structure usb_to_i2s_rate_info_t where
  usb_data_rate : float_s32_t
  spkr_itf_open : Bool
  mic_itf_open : Bool
  samples_to_host_buf_fill_level : Int
  buffer_based_correction : Int
deriving DecidableEq

/-- Modelled from the spec: the three gain constants `KP_I2S_BUF_CONTROL_FS48`, `_FS96` and
`_FS192`, whose definitions are not among the sources; they are parameters of the model. -/
structure kp_constants where
  KP_I2S_BUF_CONTROL_FS48 : Int
  KP_I2S_BUF_CONTROL_FS96 : Int
  KP_I2S_BUF_CONTROL_FS192 : Int
deriving DecidableEq

/-- The gain lookup `get_Kp_for_i2s_buffer_control` (rate_server.c, lines 190-208). -/
def get_Kp_for_i2s_buffer_control (kp : kp_constants) (nominal_i2s_rate : Int) : Int :=
  if nominal_i2s_rate = 44100 ∨ nominal_i2s_rate = 48000 then kp.KP_I2S_BUF_CONTROL_FS48
  else if nominal_i2s_rate = 88200 ∨ nominal_i2s_rate = 96000 then kp.KP_I2S_BUF_CONTROL_FS96
  else if nominal_i2s_rate = 176400 ∨ nominal_i2s_rate = 192000 then
    kp.KP_I2S_BUF_CONTROL_FS192
  else 0

/-- The module globals and the statics the loop of `rate_server` reads and writes. -/
structure rate_server_state where
  g_i2s_to_usb_rate_ratio : Nat
  g_spkr_itf_close_to_open : Bool
  g_i2s_send_buf_state : buffer_calc_state_t
  prev_spkr_itf_open : Bool
  usb_to_i2s_rate_ratio : Nat
  avg_I2S_rate : avg_I2S_rate_statics
deriving DecidableEq

/-- The constant `max_allowed_correction = (int64_t)1500 << 32` of `rate_server`. -/
def max_allowed_correction : Int := wrapInt64 (1500 * 2 ^ 32)

/-- The error term `total_error` of one iteration of `rate_server`
(rate_server.c, lines 270-291), for the gain `Kp` and the tracker state. -/
def total_error (Kp : Int) (buf : buffer_calc_state_t) : Int :=
  if buf.flag_stable_avg = true then
    let error_p := wrapInt64 (Kp * (buf.avg_buffer_level - buf.stable_avg_level))
    let total_error := wrapInt64 (error_p * 2 ^ 8)
    if total_error > max_allowed_correction then max_allowed_correction
    else if total_error < -max_allowed_correction then -max_allowed_correction
    else total_error
  else 0

/-- One iteration of the loop of `rate_server` (rate_server.c, lines 217-308): the message
received and the driver readout give the state after the iteration and the ratio sent back in
`i2s_rate_info.usb_to_i2s_rate_ratio`. The driver's nominal rate is the same at its two reads
within the iteration. -/
def rate_server (kp : kp_constants) (st : rate_server_state)
    (usb_rate_info : usb_to_i2s_rate_info_t) (drv : i2s_rate_readout) :
    rate_server_state × Nat :=
  let usb_rate := usb_rate_info.usb_data_rate
  let g_spkr_itf_close_to_open :=
    if st.prev_spkr_itf_open = false ∧ usb_rate_info.spkr_itf_open = true then true
    else st.g_spkr_itf_close_to_open
  let prev_spkr_itf_open := usb_rate_info.spkr_itf_open
  let est := determine_avg_I2S_rate_from_driver st.avg_I2S_rate drv
  let i2s_rate := est.2
  let g_i2s_to_usb_rate_ratio :=
    if i2s_rate.mant ≠ 0 ∧ usb_rate.mant ≠ 0 ∧ usb_rate_info.mic_itf_open = true then
      let fs_ratio_u64 := float_div_u64_fixed_output_q_format i2s_rate usb_rate (28 + 32)
      toU64 (fs_ratio_u64 + usb_rate_info.buffer_based_correction)
    else 0
  let usb_to_i2s_rate_ratio :=
    if i2s_rate.mant ≠ 0 ∧ usb_rate.mant ≠ 0 ∧ usb_rate_info.spkr_itf_open = true then
      let Kp := get_Kp_for_i2s_buffer_control kp (wrapInt32 drv.nominal_sampling_rate)
      let fs_ratio64 := float_div_u64_fixed_output_q_format usb_rate i2s_rate (28 + 32)
      toU64 (fs_ratio64 + total_error Kp st.g_i2s_send_buf_state)
    else 0
  ({ g_i2s_to_usb_rate_ratio := g_i2s_to_usb_rate_ratio
     g_spkr_itf_close_to_open := g_spkr_itf_close_to_open
     g_i2s_send_buf_state := st.g_i2s_send_buf_state
     prev_spkr_itf_open := prev_spkr_itf_open
     usb_to_i2s_rate_ratio := usb_to_i2s_rate_ratio
     avg_I2S_rate := est.1 }, usb_to_i2s_rate_ratio)

/-! ## Accessors of the module globals -/

/-- The getter `get_spkr_itf_close_open_event` (rate_server.c, lines 42-45). -/
def get_spkr_itf_close_open_event (st : rate_server_state) : Bool :=
  st.g_spkr_itf_close_to_open

/-- The setter `set_spkr_itf_close_open_event` (rate_server.c, lines 47-50). -/
def set_spkr_itf_close_open_event (st : rate_server_state) (event : Bool) :
    rate_server_state :=
  { st with g_spkr_itf_close_to_open := event }

/-- The getter `get_i2s_to_usb_rate_ratio` (rate_server.c, lines 53-56). -/
def get_i2s_to_usb_rate_ratio (st : rate_server_state) : Nat :=
  st.g_i2s_to_usb_rate_ratio

/-! ## Auxiliary readings of the dividers -/

/-- Values an `int` holds: the range in which the exponent arithmetic of the dividers does
not overflow. -/
def int32_range (x : Int) : Prop := -2 ^ 31 ≤ x ∧ x < 2 ^ 31

instance (x : Int) : Decidable (int32_range x) := by
  unfold int32_range
  infer_instance

/-- The shift `lhs` chosen by `float_div` (rate_server.c, line 358). -/
def float_div_lhs (dividend divisor : float_s32_t) : Nat :=
  let h_dividend := u64 (u32 dividend.mant <<< clz dividend.mant)
  let h_divisor := u32 (u32 divisor.mant <<< clz divisor.mant)
  if h_dividend > h_divisor then 31 else 32

/-- The 64-bit `quotient` of `float_div` before its truncation to 32 bits
(rate_server.c, line 369). -/
def float_div_quotient (dividend divisor : float_s32_t) : Nat :=
  let h_dividend := u64 (u32 dividend.mant <<< clz dividend.mant)
  let h_divisor := u32 (u32 divisor.mant <<< clz divisor.mant)
  let normalised_dividend := u64 (h_dividend <<< float_div_lhs dividend divisor)
  normalised_dividend / h_divisor

/-! ## The divisor handed to the divider by the estimator -/

/-- The divisor operand of the call to `float_div` that one call of
`determine_avg_I2S_rate_from_driver` makes (rate_server.c, lines 120-122, 130-132 and
144-147); `none` when the call returns without dividing. -/
def determine_float_div_divisor (st : avg_I2S_rate_statics) (drv : i2s_rate_readout) :
    Option float_s32_t :=
  if drv.nominal_sampling_rate = 0 then none
  else if drv.nominal_sampling_rate ≠ st.prev_nominal_sampling_rate then
    some { mant := REF_CLOCK_TICKS_PER_SECOND, exp := 0 }
  else if drv.timespan = 0 then
    some { mant := REF_CLOCK_TICKS_PER_SECOND, exp := 0 }
  else
    let timespan_current_bucket := u32 (st.timespan_current_bucket + drv.timespan)
    let total_timespan :=
      u32 (timespan_current_bucket + sum_array st.time_buckets TOTAL_STORED_AVG_I2S_RATE)
    some { mant := total_timespan, exp := 0 }

/-! ## The estimator over a stream of observations -/

/-- The statics right after the rate-change reset for the nominal rate `nominal`, the cached
result being `prev` (rate_server.c, lines 104-123). -/
def avg_I2S_rate_reset (nominal : Nat) (prev : float_s32_t) : avg_I2S_rate_statics :=
  { data_lengths := List.replicate 16 0
    time_buckets := List.replicate 16 0
    current_data_bucket_size := 0
    buckets_full := false
    times_overflowed := 0
    previous_result := prev
    prev_nominal_sampling_rate := nominal
    counter := 0
    timespan_current_bucket := 0 }

/-- What the window bookkeeping of a tracker initialised with `W` and `T` is after `n` calls
with `reset = false`: `n / 2 ^ W` windows are complete and `n % 2 ^ W` levels are in the
open window; the counter has followed the windows from the second one until stability. -/
def tracker_after_calls (W T : Int) (s : buffer_calc_state_t) (n : Nat) : Prop :=
  s.window_len_log2 = W ∧
  s.buffer_level_stable_threshold = T ∧
  s.count = ((n % 2 ^ W.toNat : Nat) : Int) ∧
  s.flag_first_done = decide (1 ≤ n / 2 ^ W.toNat) ∧
  s.flag_prev_avg_valid = decide (2 ≤ n / 2 ^ W.toNat) ∧
  s.flag_stable_avg = decide (T.toNat + 2 ≤ n / 2 ^ W.toNat) ∧
  s.buffer_level_stable_count = ((min (n / 2 ^ W.toNat - 1) (T.toNat + 1) : Nat) : Int) ∧
  (n / 2 ^ W.toNat = T.toNat + 2 → n % 2 ^ W.toNat = 0 →
    s.stable_avg_level = s.avg_buffer_level)

/-! # Theorems -/

/-! ## Machine-integer lemmas -/

theorem wrapInt32_of_range {x : Int} (h1 : -2 ^ 31 ≤ x) (h2 : x < 2 ^ 31) : wrapInt32 x = x := by
  unfold wrapInt32
  rw [Int.emod_eq_of_lt (by omega) (by omega)]
  omega

theorem wrapInt64_of_range {x : Int} (h1 : -2 ^ 63 ≤ x) (h2 : x < 2 ^ 63) : wrapInt64 x = x := by
  unfold wrapInt64
  rw [Int.emod_eq_of_lt (by omega) (by omega)]
  omega

theorem wrapInt64_bounds (x : Int) : -2 ^ 63 ≤ wrapInt64 x ∧ wrapInt64 x < 2 ^ 63 := by
  unfold wrapInt64
  have h1 := Int.emod_nonneg (x + 2 ^ 63) (show (2 : Int) ^ 64 ≠ 0 by norm_num)
  have h2 := Int.emod_lt_of_pos (x + 2 ^ 63) (show (0 : Int) < 2 ^ 64 by norm_num)
  constructor <;> omega

theorem u32_of_lt {x : Nat} (h : x < 2 ^ 32) : u32 x = x := Nat.mod_eq_of_lt h

theorem u64_of_lt {x : Nat} (h : x < 2 ^ 64) : u64 x = x := Nat.mod_eq_of_lt h

theorem toU64_natCast_of_lt {n : Nat} (h : n < 2 ^ 64) : toU64 (n : Int) = n := by
  unfold toU64
  rw [Int.emod_eq_of_lt (by omega) (by omega)]
  simp

theorem clzAux_le (n x : Nat) : clzAux n x ≤ n := by
  induction n with
  | zero => simp [clzAux]
  | succ k ih =>
    unfold clzAux
    split
    · omega
    · omega

theorem clzAux_spec (n x : Nat) (hx : 0 < x) (hn : x < 2 ^ (n + 1)) :
    2 ^ n ≤ x * 2 ^ clzAux (n + 1) x ∧ x * 2 ^ clzAux (n + 1) x < 2 ^ (n + 1) := by
  induction n with
  | zero =>
    have : x = 1 := by omega
    subst this
    simp [clzAux]
  | succ k ih =>
    rw [clzAux]
    split
    · rename_i h
      obtain ⟨h1, h2⟩ := ih h
      have e1 : x * 2 ^ (clzAux (k + 1) x + 1) = 2 * (x * 2 ^ clzAux (k + 1) x) := by ring
      have e2 : (2 : Nat) ^ (k + 1) = 2 * 2 ^ k := by ring
      have e3 : (2 : Nat) ^ (k + 1 + 1) = 2 * 2 ^ (k + 1) := by ring
      rw [e1, e3]
      constructor
      · omega
      · omega
    · rename_i h
      simp only [pow_zero, mul_one]
      omega

theorem clz_le (x : Nat) : clz x ≤ 32 := clzAux_le 32 _

/-- The mantissa shifted by its leading-zero count has its top bit set and fits 32 bits. -/
theorem normalised_bounds {x : Nat} (hx : x ≠ 0) (hlt : x < 2 ^ 32) :
    2 ^ 31 ≤ normalised x ∧ normalised x < 2 ^ 32 := by
  unfold normalised clz
  rw [u32_of_lt hlt]
  exact clzAux_spec 31 x (Nat.pos_of_ne_zero hx) hlt

/-! ## The dividers on normalised operands -/

theorem h_dividend_eq {x : Nat} (hx : x ≠ 0) (hlt : x < 2 ^ 32) :
    u64 (u32 x <<< clz x) = normalised x := by
  have h := normalised_bounds hx hlt
  rw [u32_of_lt hlt, Nat.shiftLeft_eq]
  exact u64_of_lt (by unfold normalised at h; omega)

theorem h_divisor_eq {x : Nat} (hx : x ≠ 0) (hlt : x < 2 ^ 32) :
    u32 (u32 x <<< clz x) = normalised x := by
  have h := normalised_bounds hx hlt
  rw [u32_of_lt hlt, Nat.shiftLeft_eq]
  exact u32_of_lt h.2

/-- The 64-bit quotient mantissa is the floor quotient of the normalised operands. -/
theorem float_div_u64_mant (a b : float_s32_t) (ha : a.mant ≠ 0) (ha32 : a.mant < 2 ^ 32)
    (hb : b.mant ≠ 0) (hb32 : b.mant < 2 ^ 32) :
    (float_div_u64 a b).mant = normalised a.mant * 2 ^ 32 / normalised b.mant := by
  have h := normalised_bounds ha ha32
  simp only [float_div_u64]
  rw [h_dividend_eq ha ha32, h_divisor_eq hb hb32, Nat.shiftLeft_eq]
  rw [u64_of_lt (by omega)]

theorem float_div_u64_exp (a b : float_s32_t) :
    (float_div_u64 a b).exp =
      wrapInt32 (wrapInt32 (a.exp - clz a.mant) - wrapInt32 (b.exp - clz b.mant) - 32) := rfl

theorem float_div_u64_self (a : float_s32_t) (ha : a.mant ≠ 0) (ha32 : a.mant < 2 ^ 32) :
    float_div_u64 a a = { mant := 2 ^ 32, exp := -32 } := by
  have hm := float_div_u64_mant a a ha ha32 ha ha32
  have he := float_div_u64_exp a a
  have h := normalised_bounds ha ha32
  rw [Nat.mul_div_cancel_left _ (by omega : 0 < normalised a.mant)] at hm
  rw [sub_self] at he
  have he2 : (float_div_u64 a a).exp = -32 := by rw [he]; decide
  cases hr : float_div_u64 a a with
  | mk m e =>
    rw [hr] at hm he2
    simp only at hm he2
    rw [hm, he2]

/-- Equal operands make the 32-bit divider shift by 32: the quotient `2 ^ 32` is truncated
to a zero mantissa. -/
theorem float_div_self (a : float_s32_t) (ha : a.mant ≠ 0) (ha32 : a.mant < 2 ^ 32) :
    float_div a a = { mant := 0, exp := -32 } := by
  have h := normalised_bounds ha ha32
  simp only [float_div]
  rw [h_dividend_eq ha ha32, h_divisor_eq ha ha32]
  simp only [gt_iff_lt, lt_self_iff_false, if_false, sub_self, Nat.shiftLeft_eq]
  rw [u64_of_lt (by omega), Nat.mul_div_cancel_left _ (by omega : 0 < normalised a.mant)]
  refine congrArg₂ float_s32_t.mk (by decide) (by decide)

theorem float_div_u64_exp_of_range (a b : float_s32_t)
    (hea : exp_in_range a.exp) (heb : exp_in_range b.exp) :
    (float_div_u64 a b).exp = a.exp - clz a.mant - (b.exp - clz b.mant) - 32 := by
  have h1 := clz_le a.mant
  have h2 := clz_le b.mant
  unfold exp_in_range at hea heb
  rw [float_div_u64_exp]
  rw [wrapInt32_of_range (x := a.exp - clz a.mant) (by omega) (by omega)]
  rw [wrapInt32_of_range (x := b.exp - clz b.mant) (by omega) (by omega)]
  rw [wrapInt32_of_range (by omega) (by omega)]

theorem value_eq_normalised (x : float_s32_t) :
    value x = (normalised x.mant : ℚ) * (2 : ℚ) ^ (x.exp - clz x.mant) := by
  unfold value normalised
  rw [zpow_sub₀ (by norm_num : (2 : ℚ) ≠ 0), zpow_natCast]
  push_cast
  field_simp
  ring

/-- The quotient of the values is the exact mantissa at the exponent the dividers return. -/
theorem value_div_eq (a b : float_s32_t) (hb : b.mant ≠ 0) (hb32 : b.mant < 2 ^ 32) :
    value a / value b =
      exact_mant a b * (2 : ℚ) ^ (a.exp - clz a.mant - (b.exp - clz b.mant) - 32) := by
  have h := normalised_bounds hb hb32
  have hne : (normalised b.mant : ℚ) ≠ 0 := by
    have : 0 < normalised b.mant := by omega
    exact_mod_cast this.ne'
  rw [value_eq_normalised a, value_eq_normalised b]
  unfold exact_mant
  rw [zpow_sub₀ (by norm_num : (2 : ℚ) ≠ 0) _ 32,
    zpow_sub₀ (by norm_num : (2 : ℚ) ≠ 0) (a.exp - _) _]
  have h2 : (2 : ℚ) ^ (b.exp - (clz b.mant : Int)) ≠ 0 := zpow_ne_zero _ (by norm_num)
  have h3 : (2 : ℚ) ^ (32 : Int) = 2 ^ 32 := by norm_cast
  rw [h3]
  field_simp
  ring

/-- The 64-bit quotient mantissa is the floor of the exact mantissa. -/
theorem float_div_u64_mant_bounds (a b : float_s32_t) (ha : a.mant ≠ 0) (ha32 : a.mant < 2 ^ 32)
    (hb : b.mant ≠ 0) (hb32 : b.mant < 2 ^ 32) :
    ((float_div_u64 a b).mant : ℚ) ≤ exact_mant a b ∧
      exact_mant a b < ((float_div_u64 a b).mant : ℚ) + 1 := by
  have hB := normalised_bounds hb hb32
  have hpos : 0 < normalised b.mant := by omega
  have hposq : (0 : ℚ) < (normalised b.mant : ℚ) := by exact_mod_cast hpos
  rw [float_div_u64_mant a b ha ha32 hb hb32]
  unfold exact_mant
  constructor
  · rw [le_div_iff₀ hposq]
    have := Nat.div_mul_le_self (normalised a.mant * 2 ^ 32) (normalised b.mant)
    exact_mod_cast this
  · rw [div_lt_iff₀ hposq]
    have h1 := Nat.div_add_mod (normalised a.mant * 2 ^ 32) (normalised b.mant)
    have h2 := Nat.mod_lt (normalised a.mant * 2 ^ 32) hpos
    have h1q : ((normalised b.mant : ℚ))
          * ((normalised a.mant * 2 ^ 32 / normalised b.mant : Nat) : ℚ)
        + ((normalised a.mant * 2 ^ 32 % normalised b.mant : Nat) : ℚ)
        = (normalised a.mant : ℚ) * 2 ^ 32 := by exact_mod_cast h1
    have h2q : ((normalised a.mant * 2 ^ 32 % normalised b.mant : Nat) : ℚ)
        < (normalised b.mant : ℚ) := by
      exact_mod_cast h2
    rw [add_mul, one_mul, mul_comm _ (normalised b.mant : ℚ)]
    calc (normalised a.mant : ℚ) * 2 ^ 32
        = (normalised b.mant : ℚ) * ((normalised a.mant * 2 ^ 32 / normalised b.mant : Nat) : ℚ)
          + ((normalised a.mant * 2 ^ 32 % normalised b.mant : Nat) : ℚ) := h1q.symm
      _ < _ := by gcongr

theorem float_div_u64_mant_lt (a b : float_s32_t) (ha : a.mant ≠ 0) (ha32 : a.mant < 2 ^ 32)
    (hb : b.mant ≠ 0) (hb32 : b.mant < 2 ^ 32) : (float_div_u64 a b).mant < 2 ^ 64 := by
  have hA := normalised_bounds ha ha32
  rw [float_div_u64_mant a b ha ha32 hb hb32]
  exact lt_of_le_of_lt (Nat.div_le_self _ _) (by omega)

/-- The rounding right shift gives the truncated quotient or its successor. -/
theorem round_shift_cases (m r : Nat) :
    m >>> r + ((m >>> (r - 1)) &&& 1) = m / 2 ^ r ∨
      m >>> r + ((m >>> (r - 1)) &&& 1) = m / 2 ^ r + 1 := by
  rw [Nat.and_one_is_mod, Nat.shiftRight_eq_div_pow]
  rcases Nat.mod_two_eq_zero_or_one (m >>> (r - 1)) with h | h
  · left; omega
  · right; omega

theorem float_div_u64_fixed_lt (a b : float_s32_t) (q : Int) :
    float_div_u64_fixed_output_q_format a b q < 2 ^ 64 := by
  simp only [float_div_u64_fixed_output_q_format]
  split_ifs <;> exact Nat.mod_lt _ (by norm_num)

/-! ## Accuracy of the 64-bit fixed-point output -/

/-- Claim C1, as stated, fails: for `1 / 3` in Q60 the exact scaled quotient `2 ^ 60 / 3` fits
64 bits, yet the returned integer is more than one unit away from it (the 33-bit quotient
mantissa is shifted left by 27 bits, whose low bits are zero). -/
theorem float_div_u64_fixed_not_within_one_unit :
    value ⟨1, 0⟩ / value ⟨3, 0⟩ * (2 : ℚ) ^ (60 : Int) < 2 ^ 64 ∧
      ¬ |(float_div_u64_fixed_output_q_format ⟨1, 0⟩ ⟨3, 0⟩ 60 : ℚ)
          - value ⟨1, 0⟩ / value ⟨3, 0⟩ * (2 : ℚ) ^ (60 : Int)| ≤ 1 := by
  have h : float_div_u64_fixed_output_q_format ⟨1, 0⟩ ⟨3, 0⟩ 60 = 384307168112803840 := by
    decide
  rw [h]
  have hv : value ⟨1, 0⟩ / value ⟨3, 0⟩ * (2 : ℚ) ^ (60 : Int) = 1152921504606846976 / 3 := by
    simp only [value]
    norm_num
  rw [hv]
  constructor
  · norm_num
  · rw [abs_le]
    norm_num

/-- The error of the 64-bit fixed-point output against the exact scaled quotient, in the
model of the shifts. -/
theorem float_div_u64_fixed_error_core (a b : float_s32_t) (q : Int)
    (ha : a.mant ≠ 0) (ha32 : a.mant < 2 ^ 32) (hb : b.mant ≠ 0) (hb32 : b.mant < 2 ^ 32)
    (hea : exp_in_range a.exp) (heb : exp_in_range b.exp) (hq : exp_in_range q)
    (hrep : value a / value b * (2 : ℚ) ^ q < 2 ^ 64) :
    |(float_div_u64_fixed_output_q_format a b q : ℚ) - value a / value b * (2 : ℚ) ^ q|
      ≤ max 1 ((2 : ℚ) ^ ((float_div_u64 a b).exp + q)) := by
  have hexp := float_div_u64_exp_of_range a b hea heb
  have hMb := float_div_u64_mant_bounds a b ha ha32 hb hb32
  have hMlt := float_div_u64_mant_lt a b ha ha32 hb hb32
  have hE : value a / value b * (2 : ℚ) ^ q
      = exact_mant a b * (2 : ℚ) ^ ((float_div_u64 a b).exp + q) := by
    rw [value_div_eq a b hb hb32, hexp, zpow_add₀ (by norm_num : (2 : ℚ) ≠ 0)]
    ring
  have hca := clz_le a.mant
  have hcb := clz_le b.mant
  unfold exp_in_range at hea heb hq
  rw [hE] at hrep ⊢
  simp only [float_div_u64_fixed_output_q_format]
  generalize exact_mant a b = X at hMb hrep ⊢
  generalize (float_div_u64 a b).mant = M at hMb hMlt ⊢
  generalize (float_div_u64 a b).exp = e at hexp hrep ⊢
  have hopq : wrapInt32 (-q) = -q := wrapInt32_of_range (by omega) (by omega)
  rw [hopq, u64_of_lt hMlt]
  split
  · rename_i hlt
    rw [wrapInt32_of_range (x := -q - e) (by omega) (by omega)]
    obtain ⟨R, hR⟩ : ∃ R : Nat, -q - e = (R : Int) := ⟨(-q - e).toNat, by omega⟩
    have hR1 : 1 ≤ R := by omega
    have hRt : (-q - e).toNat = R := by omega
    have hRt1 : (-q - e - 1).toNat = R - 1 := by omega
    rw [hRt, hRt1]
    have hk : e + q = -(R : Int) := by omega
    rw [hk, zpow_neg, zpow_natCast]
    have hdiv : M / 2 ^ R ≤ M / 2 ^ 1 :=
      Nat.div_le_div_left (Nat.pow_le_pow_right (by norm_num) hR1) (by norm_num)
    have hF1 := Nat.div_mul_le_self M (2 ^ R)
    have hF2 := Nat.lt_mul_div_succ M (Nat.two_pow_pos R)
    have hpow : (0 : ℚ) < (2 : ℚ) ^ R := by positivity
    have hF1q : ((M / 2 ^ R : Nat) : ℚ) * (2 : ℚ) ^ R ≤ (M : ℚ) := by exact_mod_cast hF1
    have hF2q : (M : ℚ) + 1 ≤ (2 : ℚ) ^ R * (((M / 2 ^ R : Nat) : ℚ) + 1) := by
      exact_mod_cast hF2
    have hlo : ((M / 2 ^ R : Nat) : ℚ) ≤ X * ((2 : ℚ) ^ R)⁻¹ := by
      rw [← div_eq_mul_inv, le_div_iff₀ hpow]
      linarith [hMb.1]
    have hhi : X * ((2 : ℚ) ^ R)⁻¹ ≤ ((M / 2 ^ R : Nat) : ℚ) + 1 := by
      rw [← div_eq_mul_inv, div_le_iff₀ hpow]
      linarith [hMb.2]
    have hMhalf : M / 2 ^ 1 < 2 ^ 63 := by omega
    apply le_max_of_le_left
    rw [abs_le]
    rcases round_shift_cases M R with h | h
    · rw [h, u64_of_lt (by omega)]
      constructor <;> linarith
    · rw [h, u64_of_lt (by omega)]
      push_cast
      constructor <;> linarith
  · rename_i hge
    rw [sub_neg_eq_add, wrapInt32_of_range (x := e + q) (by omega) (by omega)]
    obtain ⟨K, hK⟩ : ∃ K : Nat, e + q = (K : Int) := ⟨(e + q).toNat, by omega⟩
    rw [hK] at hrep ⊢
    rw [Int.toNat_ofNat, zpow_natCast, Nat.shiftLeft_eq] at *
    have hpow : (0 : ℚ) < (2 : ℚ) ^ K := by positivity
    have hfit : M * 2 ^ K < 2 ^ 64 := by
      have h1 : (M : ℚ) * (2 : ℚ) ^ K ≤ X * (2 : ℚ) ^ K :=
        mul_le_mul_of_nonneg_right hMb.1 hpow.le
      have h2 : ((M * 2 ^ K : Nat) : ℚ) < ((2 ^ 64 : Nat) : ℚ) := by
        push_cast
        linarith
      exact_mod_cast h2
    rw [u64_of_lt hfit]
    apply le_max_of_le_right
    rw [abs_le]
    push_cast
    have h1 : (M : ℚ) * (2 : ℚ) ^ K ≤ X * (2 : ℚ) ^ K :=
      mul_le_mul_of_nonneg_right hMb.1 hpow.le
    have h2 : X * (2 : ℚ) ^ K < ((M : ℚ) + 1) * (2 : ℚ) ^ K :=
      mul_lt_mul_of_pos_right hMb.2 hpow
    constructor <;> linarith

theorem float_div_u64_mant_ge (a b : float_s32_t) (ha : a.mant ≠ 0) (ha32 : a.mant < 2 ^ 32)
    (hb : b.mant ≠ 0) (hb32 : b.mant < 2 ^ 32) : 2 ^ 31 ≤ (float_div_u64 a b).mant := by
  have hA := normalised_bounds ha ha32
  have hB := normalised_bounds hb hb32
  rw [float_div_u64_mant a b ha ha32 hb hb32, Nat.le_div_iff_mul_le (by omega)]
  calc 2 ^ 31 * normalised b.mant ≤ 2 ^ 31 * 2 ^ 32 := Nat.mul_le_mul_left _ hB.2.le
    _ ≤ normalised a.mant * 2 ^ 32 := Nat.mul_le_mul_right _ hA.1

/-- Claim C1, amended: for operands with non-zero 32-bit mantissas, exponents and output
format within `exp_in_range` (no `int` overflow), an exact scaled quotient below `2 ^ 64`
and a right-shift count `-q - e` of at most 63, where
`e = (a.exp - clz a.mant) - (b.exp - clz b.mant) - 32` is the quotient exponent, the
returned integer differs from `(value a / value b) * 2 ^ q` by at most
`max 1 (2 ^ (e + q))`: one unit of the output when the mantissa is shifted right or not at
all, one unit of the quotient mantissa when it is shifted left. The left-shift count `e + q`
is at most 32, so every shift taken is below the 64-bit width. -/
theorem float_div_u64_fixed_error_bound (a b : float_s32_t) (q : Int)
    (ha : a.mant ≠ 0) (ha32 : a.mant < 2 ^ 32) (hb : b.mant ≠ 0) (hb32 : b.mant < 2 ^ 32)
    (hea : exp_in_range a.exp) (heb : exp_in_range b.exp) (hq : exp_in_range q)
    (hrep : value a / value b * (2 : ℚ) ^ q < 2 ^ 64)
    (_hsh : -q - (a.exp - clz a.mant - (b.exp - clz b.mant) - 32) ≤ 63) :
    a.exp - clz a.mant - (b.exp - clz b.mant) - 32 + q ≤ 32 ∧
    |(float_div_u64_fixed_output_q_format a b q : ℚ) - value a / value b * (2 : ℚ) ^ q|
      ≤ max 1 ((2 : ℚ) ^ (a.exp - clz a.mant - (b.exp - clz b.mant) - 32 + q)) := by
  have hexp := float_div_u64_exp_of_range a b hea heb
  have core := float_div_u64_fixed_error_core a b q ha ha32 hb hb32 hea heb hq hrep
  rw [hexp] at core
  refine ⟨?_, core⟩
  by_contra hc
  have hMb := float_div_u64_mant_bounds a b ha ha32 hb hb32
  have hM : ((2 : ℚ) ^ 31) ≤ ((float_div_u64 a b).mant : ℚ) := by
    exact_mod_cast float_div_u64_mant_ge a b ha ha32 hb hb32
  have hX : (2 : ℚ) ^ 31 ≤ exact_mant a b := le_trans hM hMb.1
  have hpow : (2 : ℚ) ^ (33 : Int)
      ≤ (2 : ℚ) ^ (a.exp - clz a.mant - (b.exp - clz b.mant) - 32 + q) :=
    zpow_le_zpow_right₀ (by norm_num) (by omega)
  have h33 : (2 : ℚ) ^ (33 : Int) = 2 ^ 33 := by norm_cast
  rw [h33] at hpow
  rw [value_div_eq a b hb hb32, mul_assoc,
    ← zpow_add₀ (by norm_num : (2 : ℚ) ≠ 0)] at hrep
  have hprod : (2 : ℚ) ^ 31 * 2 ^ 33
      ≤ exact_mant a b * (2 : ℚ) ^ (a.exp - clz a.mant - (b.exp - clz b.mant) - 32 + q) :=
    mul_le_mul hX hpow (by positivity) (le_trans (by positivity) hX)
  norm_num at hprod
  linarith

theorem float_div_u64_fixed_error_bound_witness :
    |(float_div_u64_fixed_output_q_format ⟨1, 0⟩ ⟨3, 0⟩ 20 : ℚ)
        - value ⟨1, 0⟩ / value ⟨3, 0⟩ * (2 : ℚ) ^ (20 : Int)|
      ≤ max 1 ((2 : ℚ) ^ ((0 : Int) - clz 1 - ((0 : Int) - clz 3) - 32 + 20)) :=
  (float_div_u64_fixed_error_bound ⟨1, 0⟩ ⟨3, 0⟩ 20 (by decide) (by decide) (by decide)
    (by decide) (by decide) (by decide) (by decide)
    (by simp only [value]; norm_num) (by decide)).2

/-! ## Self-division -/

/-- Claim C2: self-division through the 64-bit divider is exact. For every operand with a
non-zero 32-bit mantissa, whatever its exponent, and every output format `q` from 0 to 63,
`float_div_u64_fixed_output_q_format a a q` is `1 << q`. -/
theorem float_div_u64_fixed_self_exact (a : float_s32_t) (q : Nat)
    (ha : a.mant ≠ 0) (ha32 : a.mant < 2 ^ 32) (hq : q ≤ 63) :
    float_div_u64_fixed_output_q_format a a (q : Int) = 1 <<< q := by
  simp only [float_div_u64_fixed_output_q_format]
  rw [float_div_u64_self a ha ha32]
  interval_cases q <;> decide

theorem float_div_u64_fixed_self_exact_witness :
    float_div_u64_fixed_output_q_format ⟨4222124650, -43⟩ ⟨4222124650, -43⟩ 60 = 2 ^ 60 :=
  float_div_u64_fixed_self_exact ⟨4222124650, -43⟩ 60 (by decide) (by decide) (by decide)

/-- Claim C3 fails on the code: for every operand with a non-zero 32-bit mantissa and every
output format, `float_div_fixed_output_q_format a a q` is `0`, not `1 << q`. Equal
normalised operands take the 32-bit shift, the quotient is `2 ^ 32` and its truncation to
32 bits leaves a zero mantissa. -/
theorem float_div_fixed_self_is_zero (a : float_s32_t) (q : Int)
    (ha : a.mant ≠ 0) (ha32 : a.mant < 2 ^ 32) :
    float_div_fixed_output_q_format a a q = 0 := by
  simp only [float_div_fixed_output_q_format]
  rw [float_div_self a ha ha32]
  simp [u32]

theorem float_div_fixed_self_is_zero_witness :
    float_div_fixed_output_q_format ⟨48000, 0⟩ ⟨48000, 0⟩ 16 = 0 ∧ 1 <<< 16 ≠ 0 :=
  ⟨float_div_fixed_self_is_zero ⟨48000, 0⟩ 16 (by decide) (by decide), by decide⟩

/-! ## The rate estimator -/

/-- The rate-change branch of the estimator. -/
theorem determine_on_rate_change (st : avg_I2S_rate_statics) (drv : i2s_rate_readout)
    (h0 : drv.nominal_sampling_rate ≠ 0)
    (hne : drv.nominal_sampling_rate ≠ st.prev_nominal_sampling_rate) :
    determine_avg_I2S_rate_from_driver st drv =
      ({ data_lengths := List.replicate 16 0
         time_buckets := List.replicate 16 0
         current_data_bucket_size := 0
         buckets_full := false
         times_overflowed := 0
         previous_result :=
           float_div { mant := drv.nominal_sampling_rate, exp := 0 }
             { mant := 100000000, exp := 0 }
         prev_nominal_sampling_rate := drv.nominal_sampling_rate
         counter := 0
         timespan_current_bucket := 0 },
       float_div { mant := drv.nominal_sampling_rate, exp := 0 }
         { mant := 100000000, exp := 0 }) := by
  simp only [determine_avg_I2S_rate_from_driver, if_neg h0, hne, ne_eq, not_false_eq_true,
    if_true, REF_CLOCK_TICKS_PER_SECOND, TOTAL_STORED_AVG_I2S_RATE]

/-- Claim C4: an observation whose nominal rate is non-zero and differs from the stored one
returns `float_div {nominal, 0} {100000000, 0}`, whatever the sample count, the timespan and
the prior state, and leaves the 16 bucket pairs zero, the in-progress accumulators, the
observation counter and the write cursor zero, the ring-full flag false and the stored
nominal rate equal to the new one. -/
theorem rate_change_resets_estimator (st : avg_I2S_rate_statics) (drv : i2s_rate_readout)
    (h0 : drv.nominal_sampling_rate ≠ 0)
    (hne : drv.nominal_sampling_rate ≠ st.prev_nominal_sampling_rate) :
    (determine_avg_I2S_rate_from_driver st drv).2
        = float_div { mant := drv.nominal_sampling_rate, exp := 0 }
            { mant := 100000000, exp := 0 } ∧
      (determine_avg_I2S_rate_from_driver st drv).1.data_lengths = List.replicate 16 0 ∧
      (determine_avg_I2S_rate_from_driver st drv).1.time_buckets = List.replicate 16 0 ∧
      (determine_avg_I2S_rate_from_driver st drv).1.current_data_bucket_size = 0 ∧
      (determine_avg_I2S_rate_from_driver st drv).1.timespan_current_bucket = 0 ∧
      (determine_avg_I2S_rate_from_driver st drv).1.counter = 0 ∧
      (determine_avg_I2S_rate_from_driver st drv).1.times_overflowed = 0 ∧
      (determine_avg_I2S_rate_from_driver st drv).1.buckets_full = false ∧
      (determine_avg_I2S_rate_from_driver st drv).1.prev_nominal_sampling_rate
        = drv.nominal_sampling_rate := by
  rw [determine_on_rate_change st drv h0 hne]
  exact ⟨rfl, rfl, rfl, rfl, rfl, rfl, rfl, rfl, rfl⟩

theorem rate_change_resets_estimator_witness :
    (determine_avg_I2S_rate_from_driver
        { avg_I2S_rate_startup with
            data_lengths := List.replicate 16 7, counter := 3, times_overflowed := 5,
            buckets_full := true, prev_nominal_sampling_rate := 44100 }
        { timespan := 100000, num_samples := 48, nominal_sampling_rate := 48000 }).2
      = float_div { mant := 48000, exp := 0 } { mant := 100000000, exp := 0 } ∧
    (determine_avg_I2S_rate_from_driver
        { avg_I2S_rate_startup with
            data_lengths := List.replicate 16 7, counter := 3, times_overflowed := 5,
            buckets_full := true, prev_nominal_sampling_rate := 44100 }
        { timespan := 100000, num_samples := 48, nominal_sampling_rate := 48000 }
      ).1.data_lengths = List.replicate 16 0 :=
  ⟨(rate_change_resets_estimator _ _ (by decide) (by decide)).1,
   (rate_change_resets_estimator _ _ (by decide) (by decide)).2.1⟩

/-- Claim C5 fails on the code: from a freshly reset estimator (nominal rate 48000), 17
identical observations of 48 samples in 98304 ticks, a ratio of `2 ^ -11`, all return the
zero mantissa `{0, -43}`, so none of the returned values `r` satisfies
`r.mant * 2 ^ r.exp ≤ 48 / 98304 < (r.mant + 1) * 2 ^ r.exp`. The normalised sums are equal,
`float_div` shifts by 32 and the quotient `2 ^ 32` is truncated to 32 bits. -/
theorem estimator_power_of_two_ratio_returns_zero :
    (run_estimator
        (determine_avg_I2S_rate_from_driver avg_I2S_rate_startup
          { timespan := 0, num_samples := 0, nominal_sampling_rate := 48000 }).1
        (List.replicate 17
          { timespan := 98304, num_samples := 48, nominal_sampling_rate := 48000 })).2
      = List.replicate 17 { mant := 0, exp := -43 } ∧
    ∀ r ∈ (run_estimator
        (determine_avg_I2S_rate_from_driver avg_I2S_rate_startup
          { timespan := 0, num_samples := 0, nominal_sampling_rate := 48000 }).1
        (List.replicate 17
          { timespan := 98304, num_samples := 48, nominal_sampling_rate := 48000 })).2,
      ¬ ((r.mant : ℚ) * (2 : ℚ) ^ r.exp ≤ 48 / 98304 ∧
          (48 : ℚ) / 98304 < ((r.mant : ℚ) + 1) * (2 : ℚ) ^ r.exp) := by
  have h : (run_estimator
        (determine_avg_I2S_rate_from_driver avg_I2S_rate_startup
          { timespan := 0, num_samples := 0, nominal_sampling_rate := 48000 }).1
        (List.replicate 17
          { timespan := 98304, num_samples := 48, nominal_sampling_rate := 48000 })).2
      = List.replicate 17 { mant := 0, exp := -43 } := by decide
  refine ⟨h, ?_⟩
  rw [h]
  intro r hr
  rw [List.eq_of_mem_replicate hr]
  norm_num

/-! ## The buffer-level tracker -/

theorem feed_levels_append (s : buffer_calc_state_t) (xs ys : List Int) :
    feed_levels s (xs ++ ys) = feed_levels (feed_levels s xs) ys := by
  unfold feed_levels
  rw [List.foldl_append]

theorem feed_levels_cons (s : buffer_calc_state_t) (l : Int) (ls : List Int) :
    feed_levels s (l :: ls) = feed_levels (calc_avg_buffer_level s l false) ls := rfl

theorem calc_inside_window (s : buffer_calc_state_t) (l : Int)
    (h : s.count + 1 ≠ 2 ^ s.window_len_log2.toNat) :
    calc_avg_buffer_level s l false
      = { s with error_accum := s.error_accum + l, count := s.count + 1 } := by
  simp only [calc_avg_buffer_level, Bool.false_eq_true, if_false]
  rw [if_neg h]

/-- Inside a window the tracker only accumulates. -/
theorem feed_levels_inside_window (ls : List Int) (s : buffer_calc_state_t)
    (h0 : 0 ≤ s.count) (h : s.count + ls.length < 2 ^ s.window_len_log2.toNat) :
    feed_levels s ls
      = { s with error_accum := s.error_accum + ls.sum, count := s.count + ls.length } := by
  induction ls generalizing s with
  | nil => simp [feed_levels]
  | cons l ls ih =>
    have hlen : ((l :: ls).length : Int) = (ls.length : Int) + 1 := by simp
    rw [hlen] at h
    rw [feed_levels_cons, calc_inside_window s l (by omega)]
    rw [ih _ (by simp only; omega) (by simp only; omega)]
    simp only [List.sum_cons, hlen]
    congr 1 <;> ring

/-- The call that completes a window, field by field. -/
theorem calc_at_boundary (s : buffer_calc_state_t) (l : Int)
    (h : s.count + 1 = 2 ^ s.window_len_log2.toNat) :
    calc_avg_buffer_level s l false =
      { window_len_log2 := s.window_len_log2
        buffer_level_stable_threshold := s.buffer_level_stable_threshold
        error_accum := 0
        count := 0
        flag_first_done := true
        flag_prev_avg_valid := s.flag_first_done || s.flag_prev_avg_valid
        flag_stable_avg := s.flag_stable_avg ||
          ((s.flag_first_done || s.flag_prev_avg_valid) &&
            decide (s.buffer_level_stable_count + 1 > s.buffer_level_stable_threshold))
        prev_avg_buffer_level := s.avg_buffer_level
        avg_buffer_level :=
          if (s.flag_first_done || s.flag_prev_avg_valid) = true then
            (((s.error_accum + l) >>> s.window_len_log2.toNat) + s.avg_buffer_level).tdiv 2
          else (s.error_accum + l) >>> s.window_len_log2.toNat
        stable_avg_level :=
          if ((s.flag_first_done || s.flag_prev_avg_valid) && !s.flag_stable_avg &&
              decide (s.buffer_level_stable_count + 1 > s.buffer_level_stable_threshold)) = true
          then (((s.error_accum + l) >>> s.window_len_log2.toNat) + s.avg_buffer_level).tdiv 2
          else s.stable_avg_level
        buffer_level_stable_count :=
          if ((s.flag_first_done || s.flag_prev_avg_valid) && !s.flag_stable_avg) = true then
            s.buffer_level_stable_count + 1
          else s.buffer_level_stable_count } := by
  simp only [calc_avg_buffer_level, Bool.false_eq_true, if_false]
  rw [if_pos h]
  rcases s with ⟨W, T, acc, cnt, fd, pv, st, pa, av, sa, sc⟩
  by_cases hT : sc + 1 > T <;> cases fd <;> cases pv <;> cases st <;> simp [hT]

/-- A whole window fed from the start of a window ends in the boundary call on the
accumulated sum. -/
theorem feed_levels_window (s : buffer_calc_state_t) (ls : List Int) (l : Int)
    (hc : s.count = 0) (hlen : (ls.length : Int) + 1 = 2 ^ s.window_len_log2.toNat) :
    feed_levels s (ls ++ [l])
      = calc_avg_buffer_level
          { s with error_accum := s.error_accum + ls.sum, count := ls.length } l false := by
  rw [feed_levels_append, feed_levels_inside_window ls s (by omega) (by omega)]
  simp only [hc, zero_add]
  rfl

theorem shiftRight_two_pow_mul (n : Nat) (L : Int) : (2 ^ n * L) >>> n = L := by
  rw [Int.shiftRight_eq_div_pow]
  push_cast
  exact Int.mul_ediv_cancel_left L (by positivity)

theorem tdiv_double (L : Int) : (L + L).tdiv 2 = L := by
  rw [← two_mul]
  exact Int.mul_tdiv_cancel_left L (by norm_num)

/-- A whole window of a constant level, fed from the start of a window. -/
theorem feed_constant_window (s : buffer_calc_state_t) (L : Int)
    (hc : s.count = 0) (ha : s.error_accum = 0) :
    feed_levels s (List.replicate (2 ^ s.window_len_log2.toNat) L) =
      { window_len_log2 := s.window_len_log2
        buffer_level_stable_threshold := s.buffer_level_stable_threshold
        error_accum := 0
        count := 0
        flag_first_done := true
        flag_prev_avg_valid := s.flag_first_done || s.flag_prev_avg_valid
        flag_stable_avg := s.flag_stable_avg ||
          ((s.flag_first_done || s.flag_prev_avg_valid) &&
            decide (s.buffer_level_stable_count + 1 > s.buffer_level_stable_threshold))
        prev_avg_buffer_level := s.avg_buffer_level
        avg_buffer_level :=
          if (s.flag_first_done || s.flag_prev_avg_valid) = true then
            (L + s.avg_buffer_level).tdiv 2
          else L
        stable_avg_level :=
          if ((s.flag_first_done || s.flag_prev_avg_valid) && !s.flag_stable_avg &&
              decide (s.buffer_level_stable_count + 1 > s.buffer_level_stable_threshold)) = true
          then (L + s.avg_buffer_level).tdiv 2
          else s.stable_avg_level
        buffer_level_stable_count :=
          if ((s.flag_first_done || s.flag_prev_avg_valid) && !s.flag_stable_avg) = true then
            s.buffer_level_stable_count + 1
          else s.buffer_level_stable_count } := by
  obtain ⟨k, hk⟩ : ∃ k, 2 ^ s.window_len_log2.toNat = k + 1 :=
    ⟨2 ^ s.window_len_log2.toNat - 1, by have := Nat.two_pow_pos s.window_len_log2.toNat; omega⟩
  have hkz : ((k : Int) + 1) = 2 ^ s.window_len_log2.toNat := by exact_mod_cast hk.symm
  rw [hk, List.replicate_succ']
  rw [feed_levels_window s _ L hc (by rw [List.length_replicate]; exact hkz)]
  rw [calc_at_boundary _ _ (by simp only [List.length_replicate]; exact hkz)]
  have hsum : s.error_accum + (List.replicate k L).sum + L = 2 ^ s.window_len_log2.toNat * L := by
    rw [ha, List.sum_replicate, ← hkz]
    simp only [nsmul_eq_mul]
    ring
  simp only [hsum, shiftRight_two_pow_mul]

theorem feed_constant_succ_windows (s : buffer_calc_state_t) (L : Int) (m k : Nat) :
    feed_levels s (List.replicate ((k + 1) * m) L)
      = feed_levels (feed_levels s (List.replicate (k * m) L)) (List.replicate m L) := by
  rw [← feed_levels_append, ← List.replicate_add]
  congr 2
  ring

/-- The tracker after `j + 1` windows of a constant level, while `j` does not exceed the
threshold: not yet stable, `j` windows counted. -/
theorem feed_constant_before_stable (W T L : Int) (j : Nat) (hj : (j : Int) ≤ T) :
    feed_levels (init_calc_buffer_level_state W T) (List.replicate ((j + 1) * 2 ^ W.toNat) L) =
      { window_len_log2 := W
        buffer_level_stable_threshold := T
        error_accum := 0
        count := 0
        flag_first_done := true
        flag_prev_avg_valid := decide (1 ≤ j)
        flag_stable_avg := false
        prev_avg_buffer_level := if j = 0 then 0 else L
        avg_buffer_level := L
        stable_avg_level := 0
        buffer_level_stable_count := j } := by
  induction j with
  | zero =>
    have h := feed_constant_window (init_calc_buffer_level_state W T) L rfl rfl
    simp only [init_calc_buffer_level_state] at h ⊢
    simpa using h
  | succ i ih =>
    have hi : (i : Int) ≤ T := by push_cast at hj; omega
    rw [feed_constant_succ_windows, ih hi]
    have h := feed_constant_window
      { window_len_log2 := W
        buffer_level_stable_threshold := T
        error_accum := 0
        count := 0
        flag_first_done := true
        flag_prev_avg_valid := decide (1 ≤ i)
        flag_stable_avg := false
        prev_avg_buffer_level := if i = 0 then 0 else L
        avg_buffer_level := L
        stable_avg_level := 0
        buffer_level_stable_count := i } L rfl rfl
    simp only at h
    rw [h]
    have hnot : ¬ ((i : Int) + 1 > T) := by push_cast at hj; omega
    simp [tdiv_double, hnot]

/-- Claim C6: a tracker initialised with window length `2 ^ W` and threshold `T`, both
non-negative, and fed the constant level `L` with `reset = false` for `(T + 2) * 2 ^ W`
calls is stable, with `stable_avg_level` and `avg_buffer_level` equal to `L`. -/
theorem constant_level_becomes_stable (W T L : Int) (_hW : 0 ≤ W) (hT : 0 ≤ T) :
    (feed_levels (init_calc_buffer_level_state W T)
        (List.replicate ((T.toNat + 2) * 2 ^ W.toNat) L)).flag_stable_avg = true ∧
    (feed_levels (init_calc_buffer_level_state W T)
        (List.replicate ((T.toNat + 2) * 2 ^ W.toNat) L)).stable_avg_level = L ∧
    (feed_levels (init_calc_buffer_level_state W T)
        (List.replicate ((T.toNat + 2) * 2 ^ W.toNat) L)).avg_buffer_level = L := by
  have hT' : ((T.toNat : Nat) : Int) = T := Int.toNat_of_nonneg hT
  rw [show T.toNat + 2 = (T.toNat + 1) + 1 from rfl, feed_constant_succ_windows,
    feed_constant_before_stable W T L T.toNat (by omega)]
  have h := feed_constant_window
    { window_len_log2 := W
      buffer_level_stable_threshold := T
      error_accum := 0
      count := 0
      flag_first_done := true
      flag_prev_avg_valid := decide (1 ≤ T.toNat)
      flag_stable_avg := false
      prev_avg_buffer_level := if T.toNat = 0 then 0 else L
      avg_buffer_level := L
      stable_avg_level := 0
      buffer_level_stable_count := T.toNat } L rfl rfl
  simp only at h
  rw [h]
  simp [tdiv_double, hT']

theorem constant_level_becomes_stable_witness :
    (feed_levels init_calc_i2s_buffer_level_state
        (List.replicate (((8 : Int).toNat + 2) * 2 ^ (10 : Int).toNat) 300)).flag_stable_avg
      = true ∧
    (feed_levels init_calc_i2s_buffer_level_state
        (List.replicate (((8 : Int).toNat + 2) * 2 ^ (10 : Int).toNat) 300)).stable_avg_level
      = 300 :=
  ⟨(constant_level_becomes_stable 10 8 300 (by decide) (by decide)).1,
   (constant_level_becomes_stable 10 8 300 (by decide) (by decide)).2.1⟩

/-- Claim C7: a call with `reset = true` gives exactly the state of a call with
`reset = false` on the re-initialised tracker (same window length and threshold), so the two
configuration fields are kept and `flag_stable_avg` is false after it. -/
theorem reset_reinitialises_tracker (s : buffer_calc_state_t) (l : Int) :
    calc_avg_buffer_level s l true
        = calc_avg_buffer_level
            (init_calc_buffer_level_state s.window_len_log2 s.buffer_level_stable_threshold)
            l false ∧
      (calc_avg_buffer_level s l true).window_len_log2 = s.window_len_log2 ∧
      (calc_avg_buffer_level s l true).buffer_level_stable_threshold
        = s.buffer_level_stable_threshold ∧
      (calc_avg_buffer_level s l true).flag_stable_avg = false := by
  refine ⟨?_, ?_, ?_, ?_⟩
  · simp only [calc_avg_buffer_level, init_calc_buffer_level_state, if_true,
      Bool.false_eq_true, if_false]
  · simp only [calc_avg_buffer_level, init_calc_buffer_level_state, if_true,
      Bool.false_eq_true, if_false]
    split_ifs <;> rfl
  · simp only [calc_avg_buffer_level, init_calc_buffer_level_state, if_true,
      Bool.false_eq_true, if_false]
    split_ifs <;> rfl
  · simp only [calc_avg_buffer_level, init_calc_buffer_level_state, if_true,
      Bool.false_eq_true, if_false]
    split_ifs <;> rfl

/-! ## One iteration of the rate server -/

theorem max_allowed_correction_eq : max_allowed_correction = 1500 * 2 ^ 32 := by decide

/-- Claim C8: the error term `rate_server` adds to the remote-to-local base ratio lies in
`[-(1500 << 32), 1500 << 32]` for every gain and every tracker state, also when the 64-bit
product or the shift by 8 wraps, and when the tracker is not stable (the term is then 0). -/
theorem total_error_in_clamp (Kp : Int) (buf : buffer_calc_state_t) :
    -(1500 * 2 ^ 32) ≤ total_error Kp buf ∧ total_error Kp buf ≤ 1500 * 2 ^ 32 := by
  unfold total_error
  rw [max_allowed_correction_eq]
  simp only
  split_ifs <;> constructor <;> omega

set_option maxRecDepth 100000 in
/-- Claim C9 fails on the code in the iterations whose estimator call divides by zero. After
the reset for the nominal rate 48000 and 255 observations of 16777216 ticks, the iteration
that reads the 256th such observation hands `float_div` the divisor `{0, 0}` (the wrapped
timespan sum), before the interface flags are looked at: with the capture and the playback
interface closed it traps, the ratio stored earlier left as it was and nothing sent, where
the claim has it store and send 0. In every iteration whose
estimator call has a non-zero divisor, or makes no division, the stored local-to-remote
ratio is 0 when the capture flag is false or either rate mantissa is 0, and the sent
remote-to-local ratio is 0 when the playback flag is false or either rate mantissa is 0,
whatever the correction input and the tracker state. -/
theorem zero_ratio_unless_estimator_traps :
    determine_float_div_divisor
        ({ g_i2s_to_usb_rate_ratio := 1152921504606846976
           g_spkr_itf_close_to_open := false
           g_i2s_send_buf_state := init_calc_i2s_buffer_level_state
           prev_spkr_itf_open := false
           usb_to_i2s_rate_ratio := 0
           avg_I2S_rate :=
             (run_estimator
               (determine_avg_I2S_rate_from_driver avg_I2S_rate_startup
                 { timespan := 0, num_samples := 0, nominal_sampling_rate := 48000 }).1
               (List.replicate 255
                 { timespan := 16777216, num_samples := 8053,
                   nominal_sampling_rate := 48000 })).1 } : rate_server_state).avg_I2S_rate
        { timespan := 16777216, num_samples := 8053, nominal_sampling_rate := 48000 }
      = some { mant := 0, exp := 0 } ∧
    (∀ (kp : kp_constants) (st : rate_server_state) (usb_rate_info : usb_to_i2s_rate_info_t)
        (drv : i2s_rate_readout),
      (∀ d : float_s32_t,
        determine_float_div_divisor st.avg_I2S_rate drv = some d → d.mant ≠ 0) →
      ((usb_rate_info.mic_itf_open = false ∨
          (determine_avg_I2S_rate_from_driver st.avg_I2S_rate drv).2.mant = 0 ∨
          usb_rate_info.usb_data_rate.mant = 0) →
        (rate_server kp st usb_rate_info drv).1.g_i2s_to_usb_rate_ratio = 0) ∧
      ((usb_rate_info.spkr_itf_open = false ∨
          (determine_avg_I2S_rate_from_driver st.avg_I2S_rate drv).2.mant = 0 ∨
          usb_rate_info.usb_data_rate.mant = 0) →
        (rate_server kp st usb_rate_info drv).2 = 0)) := by
  refine ⟨by decide, ?_⟩
  intro kp st usb_rate_info drv _
  constructor
  · intro h
    simp only [rate_server]
    rw [if_neg]
    rintro ⟨h1, h2, h3⟩
    rcases h with h | h | h
    · rw [h] at h3; exact Bool.false_ne_true h3
    · exact h1 h
    · exact h2 h
  · intro h
    simp only [rate_server]
    rw [if_neg]
    rintro ⟨h1, h2, h3⟩
    rcases h with h | h | h
    · rw [h] at h3; exact Bool.false_ne_true h3
    · exact h1 h
    · exact h2 h

theorem zero_ratio_unless_estimator_traps_witness :
    (rate_server ⟨1, 2, 3⟩
        { g_i2s_to_usb_rate_ratio := 5, g_spkr_itf_close_to_open := false,
          g_i2s_send_buf_state :=
            { init_calc_i2s_buffer_level_state with
                flag_stable_avg := true, avg_buffer_level := 900, stable_avg_level := 100 },
          prev_spkr_itf_open := true, usb_to_i2s_rate_ratio := 7,
          avg_I2S_rate := avg_I2S_rate_startup }
        { usb_data_rate := ⟨4222124650, -43⟩, spkr_itf_open := true, mic_itf_open := false,
          samples_to_host_buf_fill_level := 12, buffer_based_correction := 99 }
        { timespan := 100000, num_samples := 48, nominal_sampling_rate := 48000 }
      ).1.g_i2s_to_usb_rate_ratio = 0 :=
  (zero_ratio_unless_estimator_traps.2 _ _ _ _ (by decide)).1 (Or.inl rfl)

/-- Claim C10: with both rate mantissas non-zero, the playback interface open and the
tracker not stable, the ratio sent is the base ratio
`float_div_u64_fixed_output_q_format usb_rate i2s_rate 60` alone. In the end-to-end scenario
(nominal rate 48000 just detected, remote rate equal to the local estimate
`float_div {48000, 0} {100000000, 0}`, both interfaces open, tracker not stable) the ratio
sent is the divider output for those two operands. -/
theorem not_stable_sends_base_ratio :
    (∀ (kp : kp_constants) (st : rate_server_state) (usb_rate_info : usb_to_i2s_rate_info_t)
        (drv : i2s_rate_readout),
        (determine_avg_I2S_rate_from_driver st.avg_I2S_rate drv).2.mant ≠ 0 →
        usb_rate_info.usb_data_rate.mant ≠ 0 →
        usb_rate_info.spkr_itf_open = true →
        st.g_i2s_send_buf_state.flag_stable_avg = false →
        (rate_server kp st usb_rate_info drv).2
          = float_div_u64_fixed_output_q_format usb_rate_info.usb_data_rate
              (determine_avg_I2S_rate_from_driver st.avg_I2S_rate drv).2 60) ∧
    (∀ (kp : kp_constants) (st : rate_server_state) (usb_rate_info : usb_to_i2s_rate_info_t)
        (drv : i2s_rate_readout),
        drv.nominal_sampling_rate = 48000 →
        st.avg_I2S_rate.prev_nominal_sampling_rate ≠ 48000 →
        usb_rate_info.usb_data_rate
          = float_div { mant := 48000, exp := 0 } { mant := 100000000, exp := 0 } →
        usb_rate_info.spkr_itf_open = true →
        usb_rate_info.mic_itf_open = true →
        st.g_i2s_send_buf_state.flag_stable_avg = false →
        (rate_server kp st usb_rate_info drv).2
          = float_div_u64_fixed_output_q_format
              (float_div { mant := 48000, exp := 0 } { mant := 100000000, exp := 0 })
              (float_div { mant := 48000, exp := 0 } { mant := 100000000, exp := 0 }) 60) := by
  have general : ∀ (kp : kp_constants) (st : rate_server_state)
      (usb_rate_info : usb_to_i2s_rate_info_t) (drv : i2s_rate_readout),
      (determine_avg_I2S_rate_from_driver st.avg_I2S_rate drv).2.mant ≠ 0 →
      usb_rate_info.usb_data_rate.mant ≠ 0 →
      usb_rate_info.spkr_itf_open = true →
      st.g_i2s_send_buf_state.flag_stable_avg = false →
      (rate_server kp st usb_rate_info drv).2
        = float_div_u64_fixed_output_q_format usb_rate_info.usb_data_rate
            (determine_avg_I2S_rate_from_driver st.avg_I2S_rate drv).2 60 := by
    intro kp st info drv h1 h2 h3 h4
    simp only [rate_server]
    rw [if_pos ⟨h1, h2, h3⟩]
    simp only [total_error, h4, Bool.false_eq_true, if_false, add_zero]
    exact toU64_natCast_of_lt (float_div_u64_fixed_lt _ _ _)
  refine ⟨general, ?_⟩
  intro kp st info drv hn hprev hrate hs _ hst
  have hest : (determine_avg_I2S_rate_from_driver st.avg_I2S_rate drv).2
      = float_div { mant := 48000, exp := 0 } { mant := 100000000, exp := 0 } := by
    rw [determine_on_rate_change st.avg_I2S_rate drv (by rw [hn]; decide)
      (by rw [hn]; exact fun h => hprev h.symm), hn]
  have hmant : (float_div { mant := 48000, exp := 0 } { mant := 100000000, exp := 0 }).mant ≠ 0 := by
    decide
  rw [general kp st info drv (by rw [hest]; exact hmant) (by rw [hrate]; exact hmant) hs hst,
    hest, hrate]


theorem not_stable_sends_base_ratio_witness :
    (rate_server ⟨1, 2, 3⟩
        { g_i2s_to_usb_rate_ratio := 0, g_spkr_itf_close_to_open := false,
          g_i2s_send_buf_state := init_calc_i2s_buffer_level_state,
          prev_spkr_itf_open := false, usb_to_i2s_rate_ratio := 0,
          avg_I2S_rate := avg_I2S_rate_startup }
        { usb_data_rate := float_div { mant := 48000, exp := 0 } { mant := 100000000, exp := 0 },
          spkr_itf_open := true, mic_itf_open := true,
          samples_to_host_buf_fill_level := 0, buffer_based_correction := 0 }
        { timespan := 100000, num_samples := 48, nominal_sampling_rate := 48000 }).2
      = float_div_u64_fixed_output_q_format
          (float_div { mant := 48000, exp := 0 } { mant := 100000000, exp := 0 })
          (float_div { mant := 48000, exp := 0 } { mant := 100000000, exp := 0 }) 60 :=
  not_stable_sends_base_ratio.2 _ _ _ _ rfl (by decide) rfl rfl rfl rfl

/-! ## Further properties of the rate-server iteration -/

/-- Claim C11: with both rate mantissas non-zero and the capture interface open, the ratio
stored by `rate_server`, which `get_i2s_to_usb_rate_ratio` returns, is
`float_div_u64_fixed_output_q_format i2s_rate usb_rate 60 + buffer_based_correction` modulo
`2 ^ 64`, the correction being added as it is. -/
theorem stored_ratio_adds_correction (kp : kp_constants) (st : rate_server_state)
    (usb_rate_info : usb_to_i2s_rate_info_t) (drv : i2s_rate_readout)
    (hi : (determine_avg_I2S_rate_from_driver st.avg_I2S_rate drv).2.mant ≠ 0)
    (hu : usb_rate_info.usb_data_rate.mant ≠ 0)
    (hm : usb_rate_info.mic_itf_open = true) :
    ((get_i2s_to_usb_rate_ratio (rate_server kp st usb_rate_info drv).1 : Nat) : Int)
      = ((float_div_u64_fixed_output_q_format
            (determine_avg_I2S_rate_from_driver st.avg_I2S_rate drv).2
            usb_rate_info.usb_data_rate 60 : Nat) + usb_rate_info.buffer_based_correction)
          % 2 ^ 64 := by
  simp only [get_i2s_to_usb_rate_ratio, rate_server]
  rw [if_pos ⟨hi, hu, hm⟩]
  unfold toU64
  exact Int.toNat_of_nonneg (Int.emod_nonneg _ (by norm_num))

theorem stored_ratio_adds_correction_witness :
    ((get_i2s_to_usb_rate_ratio (rate_server ⟨1, 2, 3⟩
        { g_i2s_to_usb_rate_ratio := 0, g_spkr_itf_close_to_open := false,
          g_i2s_send_buf_state := init_calc_i2s_buffer_level_state,
          prev_spkr_itf_open := false, usb_to_i2s_rate_ratio := 0,
          avg_I2S_rate := avg_I2S_rate_startup }
        { usb_data_rate := ⟨48001, 0⟩, spkr_itf_open := false, mic_itf_open := true,
          samples_to_host_buf_fill_level := 0, buffer_based_correction := -5 }
        { timespan := 100000, num_samples := 48, nominal_sampling_rate := 48000 }).1 : Nat)
        : Int)
      = ((float_div_u64_fixed_output_q_format
            (determine_avg_I2S_rate_from_driver avg_I2S_rate_startup
              { timespan := 100000, num_samples := 48, nominal_sampling_rate := 48000 }).2
            ⟨48001, 0⟩ 60 : Nat) + (-5)) % 2 ^ 64 :=
  stored_ratio_adds_correction _ _ _ _ (by decide) (by decide) rfl

/-! ## Zero divisors -/

/-- The operand `determine_float_div_divisor` names is the divisor of the call made. -/
theorem determine_divides_by (st : avg_I2S_rate_statics) (drv : i2s_rate_readout)
    (d : float_s32_t) (h : determine_float_div_divisor st drv = some d) :
    ∃ a : float_s32_t, (determine_avg_I2S_rate_from_driver st drv).2 = float_div a d := by
  unfold determine_float_div_divisor at h
  unfold determine_avg_I2S_rate_from_driver
  simp only at h ⊢
  split_ifs at h ⊢ <;> cases h <;> exact ⟨_, rfl⟩

set_option maxRecDepth 100000 in
/-- Claim C12 fails on the code: the estimator guards `timespan == 0` but divides by the
32-bit sum of the timespans. From a freshly reset estimator (nominal rate 48000), after 255
observations of 16777216 ticks each, the 256th such observation makes the sum `2 ^ 32`,
which wraps to 0: `float_div` is called with the divisor `{0, 0}`. -/
theorem estimator_divides_by_wrapped_zero_sum :
    determine_float_div_divisor
        (run_estimator
          (determine_avg_I2S_rate_from_driver avg_I2S_rate_startup
            { timespan := 0, num_samples := 0, nominal_sampling_rate := 48000 }).1
          (List.replicate 255
            { timespan := 16777216, num_samples := 8053, nominal_sampling_rate := 48000 })).1
        { timespan := 16777216, num_samples := 8053, nominal_sampling_rate := 48000 }
      = some { mant := 0, exp := 0 } := by
  decide

/-! ## No-data polls of the estimator -/

/-- The zero-timespan branch of the estimator. -/
theorem determine_on_zero_timespan (st : avg_I2S_rate_statics) (drv : i2s_rate_readout)
    (h0 : drv.nominal_sampling_rate ≠ 0)
    (heq : drv.nominal_sampling_rate = st.prev_nominal_sampling_rate)
    (ht : drv.timespan = 0) :
    determine_avg_I2S_rate_from_driver st drv =
      ({ data_lengths := st.data_lengths
         time_buckets := st.time_buckets
         current_data_bucket_size := st.current_data_bucket_size
         buckets_full := st.buckets_full
         times_overflowed := st.times_overflowed
         previous_result :=
           float_div { mant := st.prev_nominal_sampling_rate, exp := 0 }
             { mant := 100000000, exp := 0 }
         prev_nominal_sampling_rate := st.prev_nominal_sampling_rate
         counter := st.counter
         timespan_current_bucket := st.timespan_current_bucket },
       float_div { mant := st.prev_nominal_sampling_rate, exp := 0 }
         { mant := 100000000, exp := 0 }) := by
  have hne : ¬ (drv.nominal_sampling_rate ≠ st.prev_nominal_sampling_rate) := by
    rw [heq]; exact fun h => h rfl
  unfold determine_avg_I2S_rate_from_driver
  simp only [REF_CLOCK_TICKS_PER_SECOND]
  rw [if_neg h0, if_neg hne, if_pos ht]

/-- Claim C13: an estimator call with nominal rate 0 returns a zero mantissa and leaves the
statics as they are; a call with a non-zero nominal rate equal to the stored one and
timespan 0 returns `float_div {nominal, 0} {100000000, 0}` and leaves the bucket pairs, the
write cursor, the ring-full flag, the in-progress accumulators, the observation counter and
the stored nominal rate as they are, whatever sample count is reported. -/
theorem no_data_poll_keeps_average (st : avg_I2S_rate_statics) (drv : i2s_rate_readout) :
    (drv.nominal_sampling_rate = 0 →
      (determine_avg_I2S_rate_from_driver st drv).2.mant = 0 ∧
      (determine_avg_I2S_rate_from_driver st drv).1 = st) ∧
    (drv.nominal_sampling_rate ≠ 0 →
      drv.nominal_sampling_rate = st.prev_nominal_sampling_rate →
      drv.timespan = 0 →
      (determine_avg_I2S_rate_from_driver st drv).2
        = float_div { mant := drv.nominal_sampling_rate, exp := 0 }
            { mant := 100000000, exp := 0 } ∧
      (determine_avg_I2S_rate_from_driver st drv).1.data_lengths = st.data_lengths ∧
      (determine_avg_I2S_rate_from_driver st drv).1.time_buckets = st.time_buckets ∧
      (determine_avg_I2S_rate_from_driver st drv).1.times_overflowed = st.times_overflowed ∧
      (determine_avg_I2S_rate_from_driver st drv).1.buckets_full = st.buckets_full ∧
      (determine_avg_I2S_rate_from_driver st drv).1.current_data_bucket_size
        = st.current_data_bucket_size ∧
      (determine_avg_I2S_rate_from_driver st drv).1.timespan_current_bucket
        = st.timespan_current_bucket ∧
      (determine_avg_I2S_rate_from_driver st drv).1.counter = st.counter ∧
      (determine_avg_I2S_rate_from_driver st drv).1.prev_nominal_sampling_rate
        = st.prev_nominal_sampling_rate) := by
  constructor
  · intro h0
    simp only [determine_avg_I2S_rate_from_driver, if_pos h0, and_self]
  · intro h0 heq ht
    have hne : ¬ (drv.nominal_sampling_rate ≠ st.prev_nominal_sampling_rate) := by
      rw [heq]; exact fun h => h rfl
    have hres := determine_on_zero_timespan st drv h0 heq ht
    rw [hres, heq]
    exact ⟨rfl, rfl, rfl, rfl, rfl, rfl, rfl, rfl, rfl⟩

theorem no_data_poll_keeps_average_witness :
    (determine_avg_I2S_rate_from_driver
        { avg_I2S_rate_startup with
            data_lengths := List.replicate 16 7, counter := 3, times_overflowed := 5,
            prev_nominal_sampling_rate := 48000 }
        { timespan := 0, num_samples := 48, nominal_sampling_rate := 48000 }).1.counter = 3 ∧
    (determine_avg_I2S_rate_from_driver
        { avg_I2S_rate_startup with
            data_lengths := List.replicate 16 7, counter := 3, times_overflowed := 5,
            prev_nominal_sampling_rate := 48000 }
        { timespan := 100000, num_samples := 48, nominal_sampling_rate := 0 }).2.mant = 0 :=
  ⟨((no_data_poll_keeps_average _ _).2 (by decide) rfl rfl).2.2.2.2.2.2.2.1,
   ((no_data_poll_keeps_average _ _).1 rfl).1⟩

/-! ## The stable flag is latched -/

theorem calc_reset_clears_stable (s : buffer_calc_state_t) (l : Int) :
    (calc_avg_buffer_level s l true).flag_stable_avg = false := by
  simp only [calc_avg_buffer_level, init_calc_buffer_level_state, if_true,
    Bool.false_eq_true, if_false]
  split_ifs <;> rfl

theorem calc_keeps_stable (s : buffer_calc_state_t) (l : Int)
    (h : s.flag_stable_avg = true) :
    (calc_avg_buffer_level s l false).flag_stable_avg = true ∧
      (calc_avg_buffer_level s l false).stable_avg_level = s.stable_avg_level := by
  by_cases hb : s.count + 1 = 2 ^ s.window_len_log2.toNat
  · rw [calc_at_boundary s l hb]
    simp [h]
  · rw [calc_inside_window s l hb]
    exact ⟨h, rfl⟩

/-- Claim C14: once `flag_stable_avg` is true, every later call with `reset = false`, for any
levels, leaves it true and leaves `stable_avg_level` as it is; a call with `reset = true`
clears the flag. -/
theorem stable_flag_is_latched (s : buffer_calc_state_t) (levels : List Int)
    (h : s.flag_stable_avg = true) :
    (feed_levels s levels).flag_stable_avg = true ∧
      (feed_levels s levels).stable_avg_level = s.stable_avg_level ∧
      ∀ l : Int, (calc_avg_buffer_level (feed_levels s levels) l true).flag_stable_avg
        = false := by
  have key : ∀ (ls : List Int) (t : buffer_calc_state_t), t.flag_stable_avg = true →
      (feed_levels t ls).flag_stable_avg = true ∧
        (feed_levels t ls).stable_avg_level = t.stable_avg_level := by
    intro ls
    induction ls with
    | nil => intro t ht; exact ⟨ht, rfl⟩
    | cons l ls ih =>
      intro t ht
      rw [feed_levels_cons]
      obtain ⟨h1, h2⟩ := calc_keeps_stable t l ht
      obtain ⟨h3, h4⟩ := ih _ h1
      exact ⟨h3, h4.trans h2⟩
  refine ⟨(key levels s h).1, (key levels s h).2, ?_⟩
  intro l
  exact calc_reset_clears_stable _ l

theorem stable_flag_is_latched_witness :
    (feed_levels
        { init_calc_buffer_level_state 1 0 with flag_stable_avg := true, stable_avg_level := 40 }
        [9, -3, 100, 7, 7]).stable_avg_level = 40 :=
  (stable_flag_is_latched _ _ rfl).2.1

/-! ## The open event -/

/-- Claim C15: in one iteration the close-to-open event flag becomes true exactly when the
remembered playback flag was false and the received one is true, and is left as it was
otherwise; the remembered flag becomes the received one. After a first open message a second
open message leaves the flag as it finds it, also when `set_spkr_itf_close_open_event false`
has cleared it in between. -/
theorem open_event_is_edge_triggered (kp : kp_constants) (st : rate_server_state)
    (usb_rate_info : usb_to_i2s_rate_info_t) (drv : i2s_rate_readout) :
    ((st.prev_spkr_itf_open = false ∧ usb_rate_info.spkr_itf_open = true) →
        get_spkr_itf_close_open_event (rate_server kp st usb_rate_info drv).1 = true) ∧
    (¬ (st.prev_spkr_itf_open = false ∧ usb_rate_info.spkr_itf_open = true) →
        get_spkr_itf_close_open_event (rate_server kp st usb_rate_info drv).1
          = get_spkr_itf_close_open_event st) ∧
    (rate_server kp st usb_rate_info drv).1.prev_spkr_itf_open
      = usb_rate_info.spkr_itf_open ∧
    (usb_rate_info.spkr_itf_open = true →
      ∀ (info2 : usb_to_i2s_rate_info_t) (drv2 : i2s_rate_readout),
        get_spkr_itf_close_open_event
            (rate_server kp
              (set_spkr_itf_close_open_event (rate_server kp st usb_rate_info drv).1 false)
              info2 drv2).1 = false) := by
  refine ⟨?_, ?_, ?_, ?_⟩
  · intro h
    simp only [get_spkr_itf_close_open_event, rate_server]
    rw [if_pos h]
  · intro h
    simp only [get_spkr_itf_close_open_event, rate_server]
    rw [if_neg h]
  · simp only [rate_server]
  · intro h info2 drv2
    simp only [get_spkr_itf_close_open_event, set_spkr_itf_close_open_event, rate_server]
    rw [if_neg]
    rw [h]
    rintro ⟨h1, -⟩
    exact Bool.noConfusion h1

theorem open_event_is_edge_triggered_witness :
    get_spkr_itf_close_open_event (rate_server ⟨1, 2, 3⟩
        { g_i2s_to_usb_rate_ratio := 0, g_spkr_itf_close_to_open := false,
          g_i2s_send_buf_state := init_calc_i2s_buffer_level_state,
          prev_spkr_itf_open := false, usb_to_i2s_rate_ratio := 0,
          avg_I2S_rate := avg_I2S_rate_startup }
        { usb_data_rate := ⟨48001, 0⟩, spkr_itf_open := true, mic_itf_open := true,
          samples_to_host_buf_fill_level := 0, buffer_based_correction := 0 }
        { timespan := 100000, num_samples := 48, nominal_sampling_rate := 48000 }).1 = true :=
  (open_event_is_edge_triggered _ _ _ _).1 ⟨rfl, rfl⟩

/-! ## The quotient of the 64-bit divider -/

theorem float_div_u64_exp_of_int32 (a b : float_s32_t)
    (h1 : int32_range (a.exp - clz a.mant)) (h2 : int32_range (b.exp - clz b.mant))
    (h3 : int32_range (a.exp - clz a.mant - (b.exp - clz b.mant) - 32)) :
    (float_div_u64 a b).exp = a.exp - clz a.mant - (b.exp - clz b.mant) - 32 := by
  unfold int32_range at h1 h2 h3
  rw [float_div_u64_exp]
  rw [wrapInt32_of_range (x := a.exp - clz a.mant) h1.1 h1.2]
  rw [wrapInt32_of_range (x := b.exp - clz b.mant) h2.1 h2.2]
  rw [wrapInt32_of_range h3.1 h3.2]

theorem float_div_u64_mant_range (a b : float_s32_t) (ha : a.mant ≠ 0) (ha32 : a.mant < 2 ^ 32)
    (hb : b.mant ≠ 0) (hb32 : b.mant < 2 ^ 32) :
    2 ^ 31 ≤ (float_div_u64 a b).mant ∧ (float_div_u64 a b).mant < 2 ^ 33 := by
  have hA := normalised_bounds ha ha32
  have hB := normalised_bounds hb hb32
  rw [float_div_u64_mant a b ha ha32 hb hb32]
  constructor
  · rw [Nat.le_div_iff_mul_le (by omega)]
    nlinarith [hA.1, hB.2]
  · rw [Nat.div_lt_iff_lt_mul (by omega)]
    nlinarith [hA.2, hB.1]

/-- Claim C16, as stated, fails in its strict lower bound: dividing `1` by `2 ^ 32 - 1` the
normalised operands are `2 ^ 31` and `2 ^ 32 - 1`, and the floor quotient is exactly
`2 ^ 31`. -/
theorem float_div_u64_mant_can_be_two_pow_31 :
    float_div_u64 ⟨1, 0⟩ ⟨4294967295, 0⟩ = { mant := 2 ^ 31, exp := -63 } ∧
      ¬ (2 ^ 31 < (float_div_u64 ⟨1, 0⟩ ⟨4294967295, 0⟩).mant) := by
  constructor <;> decide

/-- Claim C16, amended: for operands with non-zero 32-bit mantissas whose exponent
arithmetic stays within `int`, `float_div_u64` returns the exponent
`(a.exp - clz a.mant) - (b.exp - clz b.mant) - 32` and the mantissa
`floor (ha * 2 ^ 32 / hb)` of the normalised operands; hence `2 ^ 31 ≤ mant < 2 ^ 33` and
`mant * 2 ^ exp ≤ value a / value b < (mant + 1) * 2 ^ exp`. -/
theorem float_div_u64_is_floor_quotient (a b : float_s32_t)
    (ha : a.mant ≠ 0) (ha32 : a.mant < 2 ^ 32) (hb : b.mant ≠ 0) (hb32 : b.mant < 2 ^ 32)
    (h1 : int32_range (a.exp - clz a.mant)) (h2 : int32_range (b.exp - clz b.mant))
    (h3 : int32_range (a.exp - clz a.mant - (b.exp - clz b.mant) - 32)) :
    (float_div_u64 a b).exp = a.exp - clz a.mant - (b.exp - clz b.mant) - 32 ∧
    (float_div_u64 a b).mant
      = (a.mant <<< clz a.mant) * 2 ^ 32 / (b.mant <<< clz b.mant) ∧
    2 ^ 31 ≤ (float_div_u64 a b).mant ∧ (float_div_u64 a b).mant < 2 ^ 33 ∧
    ((float_div_u64 a b).mant : ℚ) * (2 : ℚ) ^ (float_div_u64 a b).exp ≤ value a / value b ∧
    value a / value b
      < (((float_div_u64 a b).mant : ℚ) + 1) * (2 : ℚ) ^ (float_div_u64 a b).exp := by
  have hexp := float_div_u64_exp_of_int32 a b h1 h2 h3
  have hr := float_div_u64_mant_range a b ha ha32 hb hb32
  have hMb := float_div_u64_mant_bounds a b ha ha32 hb hb32
  have hpow : (0 : ℚ) < (2 : ℚ) ^ (float_div_u64 a b).exp := by positivity
  refine ⟨hexp, ?_, hr.1, hr.2, ?_, ?_⟩
  · rw [float_div_u64_mant a b ha ha32 hb hb32, Nat.shiftLeft_eq, Nat.shiftLeft_eq]
    rfl
  · rw [value_div_eq a b hb hb32, ← hexp]
    exact mul_le_mul_of_nonneg_right hMb.1 hpow.le
  · rw [value_div_eq a b hb hb32, ← hexp]
    exact mul_lt_mul_of_pos_right hMb.2 hpow

theorem float_div_u64_is_floor_quotient_witness :
    2 ^ 31 ≤ (float_div_u64 ⟨48000, 0⟩ ⟨100000000, 0⟩).mant ∧
      (float_div_u64 ⟨48000, 0⟩ ⟨100000000, 0⟩).mant < 2 ^ 33 :=
  ⟨(float_div_u64_is_floor_quotient ⟨48000, 0⟩ ⟨100000000, 0⟩ (by decide) (by decide)
      (by decide) (by decide) (by decide) (by decide) (by decide)).2.2.1,
   (float_div_u64_is_floor_quotient ⟨48000, 0⟩ ⟨100000000, 0⟩ (by decide) (by decide)
      (by decide) (by decide) (by decide) (by decide) (by decide)).2.2.2.1⟩

/-! ## The quotient of the 32-bit divider -/

theorem float_div_mant_eq (a b : float_s32_t) :
    (float_div a b).mant = u32 (float_div_quotient a b) := rfl

theorem float_div_lhs_eq (a b : float_s32_t) (ha : a.mant ≠ 0) (ha32 : a.mant < 2 ^ 32)
    (hb : b.mant ≠ 0) (hb32 : b.mant < 2 ^ 32) :
    float_div_lhs a b = if normalised a.mant > normalised b.mant then 31 else 32 := by
  simp only [float_div_lhs]
  rw [h_dividend_eq ha ha32, h_divisor_eq hb hb32]

theorem float_div_quotient_eq (a b : float_s32_t) (ha : a.mant ≠ 0) (ha32 : a.mant < 2 ^ 32)
    (hb : b.mant ≠ 0) (hb32 : b.mant < 2 ^ 32) :
    float_div_quotient a b
      = normalised a.mant * 2 ^ float_div_lhs a b / normalised b.mant := by
  have hA := normalised_bounds ha ha32
  have hl : float_div_lhs a b ≤ 32 := by
    rw [float_div_lhs_eq a b ha ha32 hb hb32]; split_ifs <;> omega
  simp only [float_div_quotient]
  rw [h_dividend_eq ha ha32, h_divisor_eq hb hb32, Nat.shiftLeft_eq]
  rw [u64_of_lt]
  calc normalised a.mant * 2 ^ float_div_lhs a b
      ≤ normalised a.mant * 2 ^ 32 :=
        Nat.mul_le_mul_left _ (Nat.pow_le_pow_right (by norm_num) hl)
    _ < 2 ^ 64 := by omega

/-- Unequal normalised operands: the quotient fills 32 bits without overflow. -/
theorem float_div_quotient_bounds (a b : float_s32_t) (ha : a.mant ≠ 0) (ha32 : a.mant < 2 ^ 32)
    (hb : b.mant ≠ 0) (hb32 : b.mant < 2 ^ 32)
    (hne : normalised a.mant ≠ normalised b.mant) :
    2 ^ 31 ≤ float_div_quotient a b ∧ float_div_quotient a b < 2 ^ 32 := by
  have hA := normalised_bounds ha ha32
  have hB := normalised_bounds hb hb32
  rw [float_div_quotient_eq a b ha ha32 hb hb32, float_div_lhs_eq a b ha ha32 hb hb32]
  split_ifs with hgt
  · constructor
    · rw [Nat.le_div_iff_mul_le (by omega)]
      nlinarith
    · rw [Nat.div_lt_iff_lt_mul (by omega)]
      nlinarith
  · have hlt : normalised a.mant < normalised b.mant := by omega
    constructor
    · rw [Nat.le_div_iff_mul_le (by omega)]
      nlinarith
    · rw [Nat.div_lt_iff_lt_mul (by omega)]
      nlinarith

/-- Equal normalised operands: the quotient is `2 ^ 32`, one more than 32 bits hold. -/
theorem float_div_quotient_of_eq (a b : float_s32_t) (ha : a.mant ≠ 0) (ha32 : a.mant < 2 ^ 32)
    (hb : b.mant ≠ 0) (hb32 : b.mant < 2 ^ 32)
    (heq : normalised a.mant = normalised b.mant) :
    float_div_quotient a b = 2 ^ 32 := by
  have hB := normalised_bounds hb hb32
  rw [float_div_quotient_eq a b ha ha32 hb hb32, float_div_lhs_eq a b ha ha32 hb hb32, heq]
  simp only [gt_iff_lt, lt_self_iff_false, if_false]
  exact Nat.mul_div_cancel_left _ (by omega)

/-- Claim C17 fails on the code for equal normalised operands: the shift choice
`h_dividend > h_divisor ? 31 : 32` takes 32 there, the quotient is `2 ^ 32`, outside
`[2 ^ 31, 2 ^ 32)`, and the 32-bit mantissa is 0. For unequal normalised operands the
quotient lies in `[2 ^ 31, 2 ^ 32)` and the mantissa is the untruncated quotient. -/
theorem float_div_quotient_overflows_on_equal (a b : float_s32_t)
    (ha : a.mant ≠ 0) (ha32 : a.mant < 2 ^ 32) (hb : b.mant ≠ 0) (hb32 : b.mant < 2 ^ 32) :
    (normalised a.mant = normalised b.mant →
      float_div_quotient a b = 2 ^ 32 ∧ (float_div a b).mant = 0) ∧
    (normalised a.mant ≠ normalised b.mant →
      2 ^ 31 ≤ float_div_quotient a b ∧ float_div_quotient a b < 2 ^ 32 ∧
        (float_div a b).mant = float_div_quotient a b) := by
  constructor
  · intro heq
    have hq := float_div_quotient_of_eq a b ha ha32 hb hb32 heq
    refine ⟨hq, ?_⟩
    rw [float_div_mant_eq, hq]
    decide
  · intro hne
    have hq := float_div_quotient_bounds a b ha ha32 hb hb32 hne
    exact ⟨hq.1, hq.2, by rw [float_div_mant_eq, u32_of_lt hq.2]⟩

theorem float_div_quotient_overflows_on_equal_witness :
    float_div_quotient ⟨48, 0⟩ ⟨98304, 0⟩ = 2 ^ 32 ∧ (float_div ⟨48, 0⟩ ⟨98304, 0⟩).mant = 0 :=
  (float_div_quotient_overflows_on_equal ⟨48, 0⟩ ⟨98304, 0⟩ (by decide) (by decide) (by decide)
    (by decide)).1 (by decide)

/-! ## Rounding of the fixed-point conversion -/

/-- Adding the bit below the shifted-out range rounds the shifted value half up. -/
theorem round_shift_eq (m r : Nat) (hr : 1 ≤ r) :
    m >>> r + ((m >>> (r - 1)) &&& 1) = (m + 2 ^ (r - 1)) / 2 ^ r := by
  obtain ⟨k, rfl⟩ : ∃ k, r = k + 1 := ⟨r - 1, by omega⟩
  rw [Nat.and_one_is_mod, Nat.shiftRight_eq_div_pow, Nat.shiftRight_eq_div_pow]
  simp only [Nat.add_sub_cancel]
  have hk : 0 < 2 ^ k := Nat.two_pow_pos k
  rw [pow_succ, ← Nat.div_div_eq_div_mul, ← Nat.div_div_eq_div_mul,
    Nat.add_div_right _ hk]
  omega

theorem float_div_mant_lt (a b : float_s32_t) : (float_div a b).mant < 2 ^ 32 := by
  rw [float_div_mant_eq]
  exact Nat.mod_lt _ (by norm_num)

theorem float_div_u64_mant_lt_any (a b : float_s32_t) : (float_div_u64 a b).mant < 2 ^ 64 := by
  simp only [float_div_u64]
  exact lt_of_le_of_lt (Nat.div_le_self _ _) (Nat.mod_lt _ (by norm_num))

theorem float_div_exp_range (a b : float_s32_t) :
    -2 ^ 31 ≤ (float_div a b).exp ∧ (float_div a b).exp < 2 ^ 31 := by
  simp only [float_div, wrapInt32]
  constructor <;> omega

theorem float_div_u64_exp_range (a b : float_s32_t) :
    -2 ^ 31 ≤ (float_div_u64 a b).exp ∧ (float_div_u64 a b).exp < 2 ^ 31 := by
  simp only [float_div_u64, wrapInt32]
  constructor <;> omega

/-- Claim C18: for an output format `q` whose negation is an `int`, both fixed-point
conversions round half up on a right shift, `floor ((mant + 2 ^ (rsh - 1)) / 2 ^ rsh)` for
`rsh = -q - exp` from 1 to 31 (to 63 for the 64-bit one), and shift left by `exp + q`
without rounding, truncated to the result width, when `exp ≥ -q`; the left-shift count is
at most 31 (63 for the 64-bit one), the range in which the C shift is defined. -/
theorem fixed_output_rounds_half_up (a b : float_s32_t) (q : Int)
    (hq1 : -2 ^ 31 < q) (hq2 : q < 2 ^ 31) :
    (∀ rsh : Nat, 1 ≤ rsh → rsh ≤ 31 → (float_div a b).exp = -q - rsh →
      float_div_fixed_output_q_format a b q
        = ((float_div a b).mant + 2 ^ (rsh - 1)) / 2 ^ rsh) ∧
    (∀ lsh : Nat, (float_div a b).exp + q = lsh → lsh ≤ 31 →
      float_div_fixed_output_q_format a b q = ((float_div a b).mant <<< lsh) % 2 ^ 32) ∧
    (∀ rsh : Nat, 1 ≤ rsh → rsh ≤ 63 → (float_div_u64 a b).exp = -q - rsh →
      float_div_u64_fixed_output_q_format a b q
        = ((float_div_u64 a b).mant + 2 ^ (rsh - 1)) / 2 ^ rsh) ∧
    (∀ lsh : Nat, (float_div_u64 a b).exp + q = lsh → lsh ≤ 63 →
      float_div_u64_fixed_output_q_format a b q
        = ((float_div_u64 a b).mant <<< lsh) % 2 ^ 64) := by
  have hopq : wrapInt32 (-q) = -q := wrapInt32_of_range (by omega) (by omega)
  have hm32 := float_div_mant_lt a b
  have hm64 := float_div_u64_mant_lt_any a b
  refine ⟨?_, ?_, ?_, ?_⟩
  · intro rsh h1 h31 he
    simp only [float_div_fixed_output_q_format]
    rw [hopq, if_pos (by omega), u32_of_lt hm32]
    rw [wrapInt32_of_range (x := -q - (float_div a b).exp) (by omega) (by omega)]
    have e1 : (-q - (float_div a b).exp).toNat = rsh := by omega
    have e2 : (-q - (float_div a b).exp - 1).toNat = rsh - 1 := by omega
    rw [e1, e2, round_shift_eq _ _ h1]
    apply u32_of_lt
    rw [Nat.div_lt_iff_lt_mul (Nat.two_pow_pos rsh)]
    have hp : 2 ^ (rsh - 1) * 2 = 2 ^ rsh := by
      rw [← pow_succ]; congr 1; omega
    have hp1 : 1 ≤ 2 ^ (rsh - 1) := Nat.two_pow_pos _
    nlinarith
  · intro lsh he hl
    simp only [float_div_fixed_output_q_format]
    rw [hopq, if_neg (by omega), u32_of_lt hm32, sub_neg_eq_add, he]
    rw [wrapInt32_of_range (x := (lsh : Int)) (by omega) (by omega), Int.toNat_ofNat]
    rfl
  · intro rsh h1 h63 he
    simp only [float_div_u64_fixed_output_q_format]
    rw [hopq, if_pos (by omega), u64_of_lt hm64]
    rw [wrapInt32_of_range (x := -q - (float_div_u64 a b).exp) (by omega) (by omega)]
    have e1 : (-q - (float_div_u64 a b).exp).toNat = rsh := by omega
    have e2 : (-q - (float_div_u64 a b).exp - 1).toNat = rsh - 1 := by omega
    rw [e1, e2, round_shift_eq _ _ h1]
    apply u64_of_lt
    rw [Nat.div_lt_iff_lt_mul (Nat.two_pow_pos rsh)]
    have hp : 2 ^ (rsh - 1) * 2 = 2 ^ rsh := by
      rw [← pow_succ]; congr 1; omega
    have hp1 : 1 ≤ 2 ^ (rsh - 1) := Nat.two_pow_pos _
    nlinarith
  · intro lsh he hl
    simp only [float_div_u64_fixed_output_q_format]
    rw [hopq, if_neg (by omega), u64_of_lt hm64, sub_neg_eq_add, he]
    rw [wrapInt32_of_range (x := (lsh : Int)) (by omega) (by omega), Int.toNat_ofNat]
    rfl

theorem fixed_output_rounds_half_up_witness :
    float_div_u64_fixed_output_q_format ⟨1, 0⟩ ⟨3, 0⟩ 20
      = ((float_div_u64 ⟨1, 0⟩ ⟨3, 0⟩).mant + 2 ^ (13 - 1)) / 2 ^ 13 ∧
    float_div_u64_fixed_output_q_format ⟨1, 0⟩ ⟨3, 0⟩ 60
      = ((float_div_u64 ⟨1, 0⟩ ⟨3, 0⟩).mant <<< 27) % 2 ^ 64 :=
  ⟨(fixed_output_rounds_half_up ⟨1, 0⟩ ⟨3, 0⟩ 20 (by decide) (by decide)).2.2.1 13
      (by decide) (by decide) (by decide),
   (fixed_output_rounds_half_up ⟨1, 0⟩ ⟨3, 0⟩ 60 (by decide) (by decide)).2.2.2 27
      (by decide) (by decide)⟩

/-! ## The estimator as a sliding window -/

/-- The rate-change branch leaves the statics of `avg_I2S_rate_reset`. -/
theorem determine_on_rate_change_reset (st : avg_I2S_rate_statics) (drv : i2s_rate_readout)
    (h0 : drv.nominal_sampling_rate ≠ 0)
    (hne : drv.nominal_sampling_rate ≠ st.prev_nominal_sampling_rate) :
    (determine_avg_I2S_rate_from_driver st drv).1
      = avg_I2S_rate_reset drv.nominal_sampling_rate
          (float_div { mant := drv.nominal_sampling_rate, exp := 0 }
            { mant := 100000000, exp := 0 }) := by
  rw [determine_on_rate_change st drv h0 hne]
  rfl

theorem succ_div_mod_of_boundary (n m : Nat) (h : n % m + 1 = m) :
    (n + 1) / m = n / m + 1 ∧ (n + 1) % m = 0 := by
  have hm : 0 < m := by omega
  have hn : n + 1 = m * (n / m + 1) := by
    have := Nat.div_add_mod n m
    rw [Nat.mul_add, Nat.mul_one]
    omega
  rw [hn]
  exact ⟨Nat.mul_div_cancel_left _ hm, Nat.mul_mod_right _ _⟩

theorem succ_div_mod_of_inside (n m : Nat) (hm : 0 < m) (h : n % m + 1 ≠ m) :
    (n + 1) / m = n / m ∧ (n + 1) % m = n % m + 1 := by
  have hlt : n % m < m := Nat.mod_lt n hm
  have hn : n + 1 = (n % m + 1) + m * (n / m) := by
    have := Nat.div_add_mod n m
    omega
  rw [hn, Nat.add_mul_div_left _ _ hm, Nat.add_mul_mod_self_left,
    Nat.div_eq_of_lt (by omega), Nat.mod_eq_of_lt (by omega), Nat.zero_add]
  simp

theorem tracker_after_calls_init (W T : Int) :
    tracker_after_calls W T (init_calc_buffer_level_state W T) 0 := by
  have hm : 0 < 2 ^ W.toNat := Nat.two_pow_pos _
  refine ⟨rfl, rfl, ?_, ?_, ?_, ?_, ?_, ?_⟩ <;>
    simp [init_calc_buffer_level_state, Nat.div_eq_of_lt hm]

/-- The bookkeeping fields after the call that completes a window. -/
theorem calc_at_boundary_fields (s : buffer_calc_state_t) (l : Int)
    (h : s.count + 1 = 2 ^ s.window_len_log2.toNat) :
    (calc_avg_buffer_level s l false).window_len_log2 = s.window_len_log2 ∧
    (calc_avg_buffer_level s l false).buffer_level_stable_threshold
      = s.buffer_level_stable_threshold ∧
    (calc_avg_buffer_level s l false).count = 0 ∧
    (calc_avg_buffer_level s l false).flag_first_done = true ∧
    (calc_avg_buffer_level s l false).flag_prev_avg_valid
      = (s.flag_first_done || s.flag_prev_avg_valid) ∧
    (calc_avg_buffer_level s l false).flag_stable_avg
      = (s.flag_stable_avg || ((s.flag_first_done || s.flag_prev_avg_valid) &&
          decide (s.buffer_level_stable_count + 1 > s.buffer_level_stable_threshold))) ∧
    (calc_avg_buffer_level s l false).buffer_level_stable_count
      = (if ((s.flag_first_done || s.flag_prev_avg_valid) && !s.flag_stable_avg) = true then
          s.buffer_level_stable_count + 1
        else s.buffer_level_stable_count) ∧
    (((s.flag_first_done || s.flag_prev_avg_valid) && !s.flag_stable_avg &&
        decide (s.buffer_level_stable_count + 1 > s.buffer_level_stable_threshold)) = true →
      (calc_avg_buffer_level s l false).stable_avg_level
        = (calc_avg_buffer_level s l false).avg_buffer_level) := by
  rw [calc_at_boundary s l h]
  refine ⟨rfl, rfl, rfl, rfl, rfl, rfl, rfl, ?_⟩
  intro hc
  have hv : (s.flag_first_done || s.flag_prev_avg_valid) = true := by
    simp only [Bool.and_eq_true] at hc
    exact hc.1.1
  dsimp only
  rw [if_pos hc, if_pos hv]

theorem tracker_after_calls_step (W T : Int) (hT : 0 ≤ T) (s : buffer_calc_state_t) (n : Nat)
    (l : Int) (h : tracker_after_calls W T s n) :
    tracker_after_calls W T (calc_avg_buffer_level s l false) (n + 1) := by
  obtain ⟨hW, hTh, hcount, hfd, hpv, hst, hsc, _⟩ := h
  have hm : 0 < 2 ^ W.toNat := Nat.two_pow_pos _
  have hT' : ((T.toNat : Nat) : Int) = T := Int.toNat_of_nonneg hT
  by_cases hb : n % 2 ^ W.toNat + 1 = 2 ^ W.toNat
  · obtain ⟨hdiv, hmod⟩ := succ_div_mod_of_boundary n _ hb
    have hb' : s.count + 1 = 2 ^ s.window_len_log2.toNat := by
      rw [hcount, hW]; exact_mod_cast hb
    obtain ⟨f1, f2, f3, f4, f5, f6, f7, f8⟩ := calc_at_boundary_fields s l hb'
    unfold tracker_after_calls
    rw [hdiv, hmod]
    rw [hfd, hpv] at f5
    rw [hfd, hpv, hst, hsc, hTh] at f6
    rw [hfd, hpv, hst, hsc] at f7
    rw [hfd, hpv, hst, hsc, hTh] at f8
    generalize n / 2 ^ W.toNat = k at f5 f6 f7 f8
    generalize T.toNat = t at f5 f6 f7 f8 hT'
    subst hT'
    refine ⟨f1.trans hW, f2.trans hTh, by rw [f3]; rfl, ?_, ?_, ?_, ?_, ?_⟩
    · rw [f4]; simp
    · rw [f5, Bool.eq_iff_iff]
      simp only [Bool.or_eq_true, decide_eq_true_eq]
      omega
    · rw [f6, Bool.eq_iff_iff]
      simp only [Bool.or_eq_true, Bool.and_eq_true, decide_eq_true_eq]
      omega
    · rw [f7]
      split_ifs with hc
      · simp only [Bool.and_eq_true, Bool.or_eq_true, decide_eq_true_eq, Bool.not_eq_true',
          decide_eq_false_iff_not] at hc
        omega
      · simp only [Bool.and_eq_true, Bool.or_eq_true, decide_eq_true_eq, Bool.not_eq_true',
          decide_eq_false_iff_not] at hc
        omega
    · intro hk _
      apply f8
      simp only [Bool.and_eq_true, Bool.or_eq_true, decide_eq_true_eq, Bool.not_eq_true',
        decide_eq_false_iff_not]
      omega
  · obtain ⟨hdiv, hmod⟩ := succ_div_mod_of_inside n _ hm hb
    have hb' : s.count + 1 ≠ 2 ^ s.window_len_log2.toNat := by
      rw [hcount, hW]
      intro hc
      exact hb (by exact_mod_cast hc)
    rw [calc_inside_window s l hb']
    unfold tracker_after_calls
    rw [hdiv, hmod]
    refine ⟨hW, hTh, ?_, hfd, hpv, hst, hsc, ?_⟩
    · show s.count + 1 = _
      rw [hcount]; push_cast; rfl
    · intro _ h0
      omega

theorem tracker_after_calls_feed (W T : Int) (hT : 0 ≤ T) (levels : List Int)
    (s : buffer_calc_state_t) (n : Nat) (h : tracker_after_calls W T s n) :
    tracker_after_calls W T (feed_levels s levels) (n + levels.length) := by
  induction levels generalizing s n with
  | nil => exact h
  | cons l ls ih =>
    rw [feed_levels_cons]
    have := ih _ (n + 1) (tracker_after_calls_step W T hT s n l h)
    rw [List.length_cons]
    rwa [show n + (ls.length + 1) = n + 1 + ls.length by omega]

/-- Claim C20, as stated, fails in its last clause: the counter is not incremented at a
boundary that follows the declaration of stability. With `W = 0` and `T = 0` it is 1 after
the second boundary, where stability is declared, and still 1 after the third. -/
theorem stable_count_stops_after_stability :
    (feed_levels (init_calc_buffer_level_state 0 0) [5, 9]).flag_stable_avg = true ∧
    (feed_levels (init_calc_buffer_level_state 0 0) [5, 9]).buffer_level_stable_count = 1 ∧
    (feed_levels (init_calc_buffer_level_state 0 0) [5, 9, 2]).buffer_level_stable_count
      = 1 := by
  decide

/-- Claim C20, amended: for a tracker initialised with `W ≥ 0` and `T ≥ 0` and any levels
fed with `reset = false`, `flag_stable_avg` after `n` calls is true exactly when
`(T + 2) * 2 ^ W ≤ n`; after call `(T + 2) * 2 ^ W` itself `stable_avg_level` is the
blended average `avg_buffer_level` of that boundary; and the counter after `n` calls is
`min (n / 2 ^ W - 1) (T + 1)`: incremented at every boundary from the second one up to the
one that declares stability, whatever the levels, and left at `T + 1` afterwards. -/
theorem stability_at_fixed_window_count (W T : Int) (_hW : 0 ≤ W) (hT : 0 ≤ T)
    (levels : List Int) :
    (feed_levels (init_calc_buffer_level_state W T) levels).flag_stable_avg
      = decide ((T.toNat + 2) * 2 ^ W.toNat ≤ levels.length) ∧
    (levels.length = (T.toNat + 2) * 2 ^ W.toNat →
      (feed_levels (init_calc_buffer_level_state W T) levels).stable_avg_level
        = (feed_levels (init_calc_buffer_level_state W T) levels).avg_buffer_level) ∧
    (feed_levels (init_calc_buffer_level_state W T) levels).buffer_level_stable_count
      = ((min (levels.length / 2 ^ W.toNat - 1) (T.toNat + 1) : Nat) : Int) := by
  have h := tracker_after_calls_feed W T hT levels _ 0 (tracker_after_calls_init W T)
  rw [Nat.zero_add] at h
  obtain ⟨-, -, -, -, -, hst, hsc, hsa⟩ := h
  have hm : 0 < 2 ^ W.toNat := Nat.two_pow_pos _
  refine ⟨?_, ?_, hsc⟩
  · rw [hst, Bool.eq_iff_iff]
    simp only [decide_eq_true_eq]
    exact Nat.le_div_iff_mul_le hm
  · intro hlen
    apply hsa
    · rw [hlen]; exact Nat.mul_div_cancel _ hm
    · rw [hlen]; exact Nat.mul_mod_left _ _

theorem stability_at_fixed_window_count_witness :
    (feed_levels (init_calc_buffer_level_state 1 1) [3, 8, -2, 7, 40, 1]).flag_stable_avg
      = decide (((1 : Int).toNat + 2) * 2 ^ (1 : Int).toNat ≤ [3, 8, -2, 7, 40, (1 : Int)].length) :=
  (stability_at_fixed_window_count 1 1 (by decide) (by decide) [3, 8, -2, 7, 40, 1]).1

/-! ## The two dividers side by side -/

theorem wrapInt32_sub_sub (x y : Int) (l : Nat) :
    wrapInt32 (wrapInt32 x - wrapInt32 y - l) = wrapInt32 (x - y - l) := by
  unfold wrapInt32
  omega

theorem float_div_exp_eq (a b : float_s32_t) :
    (float_div a b).exp
      = wrapInt32 (a.exp - clz a.mant - (b.exp - clz b.mant) - float_div_lhs a b) := by
  rw [← wrapInt32_sub_sub]
  rfl

theorem float_div_u64_exp_eq (a b : float_s32_t) :
    (float_div_u64 a b).exp
      = wrapInt32 (a.exp - clz a.mant - (b.exp - clz b.mant) - 32) := by
  rw [float_div_u64_exp]
  exact wrapInt32_sub_sub _ _ 32

/-- Claim C21 fails on the code for equal normalised operands: `float_div` then uses the
shift 32, as `float_div_u64` does, but its mantissa is 0 where the 64-bit divider returns
`2 ^ 32`. With the normalised dividend below the divisor the two results are equal; with it
above, `float_div` returns the 64-bit mantissa shifted right by one at the exponent one
higher. -/
theorem float_div_agrees_with_u64_unless_equal (a b : float_s32_t)
    (ha : a.mant ≠ 0) (ha32 : a.mant < 2 ^ 32) (hb : b.mant ≠ 0) (hb32 : b.mant < 2 ^ 32) :
    (normalised a.mant = normalised b.mant →
      float_div_lhs a b = 32 ∧ (float_div a b).mant = 0 ∧
        (float_div_u64 a b).mant = 2 ^ 32 ∧
        (float_div a b).exp = (float_div_u64 a b).exp) ∧
    (normalised a.mant < normalised b.mant →
      float_div_lhs a b = 32 ∧ (float_div a b).mant = (float_div_u64 a b).mant ∧
        (float_div a b).exp = (float_div_u64 a b).exp) ∧
    (normalised a.mant > normalised b.mant →
      float_div_lhs a b = 31 ∧ (float_div a b).mant = (float_div_u64 a b).mant >>> 1 ∧
        (float_div a b).exp = wrapInt32 ((float_div_u64 a b).exp + 1) ∧
        (int32_range ((float_div_u64 a b).exp + 1) →
          (float_div a b).exp = (float_div_u64 a b).exp + 1)) := by
  have hA := normalised_bounds ha ha32
  have hB := normalised_bounds hb hb32
  have hl := float_div_lhs_eq a b ha ha32 hb hb32
  have hq := float_div_quotient_eq a b ha ha32 hb hb32
  have hm := float_div_u64_mant a b ha ha32 hb hb32
  have he := float_div_exp_eq a b
  have he64 := float_div_u64_exp_eq a b
  refine ⟨?_, ?_, ?_⟩
  · intro heq
    have hl32 : float_div_lhs a b = 32 := by rw [hl, if_neg (by omega)]
    refine ⟨hl32, ?_, ?_, ?_⟩
    · rw [float_div_mant_eq, float_div_quotient_of_eq a b ha ha32 hb hb32 heq]
      decide
    · rw [hm, heq]
      exact Nat.mul_div_cancel_left _ (by omega)
    · rw [he, he64, hl32]
      rfl
  · intro hlt
    have hl32 : float_div_lhs a b = 32 := by rw [hl, if_neg (by omega)]
    have hbd := float_div_quotient_bounds a b ha ha32 hb hb32 (by omega)
    refine ⟨hl32, ?_, ?_⟩
    · rw [float_div_mant_eq, u32_of_lt hbd.2, hq, hl32, hm]
    · rw [he, he64, hl32]
      rfl
  · intro hgt
    have hl31 : float_div_lhs a b = 31 := by rw [hl, if_pos hgt]
    have hbd := float_div_quotient_bounds a b ha ha32 hb hb32 (by omega)
    have hexp : (float_div a b).exp = wrapInt32 ((float_div_u64 a b).exp + 1) := by
      rw [he, he64, hl31]
      unfold wrapInt32
      push_cast
      omega
    refine ⟨hl31, ?_, hexp, ?_⟩
    · rw [float_div_mant_eq, u32_of_lt hbd.2, hq, hl31, hm, Nat.shiftRight_eq_div_pow,
        Nat.div_div_eq_div_mul]
      have h2 : normalised a.mant * 2 ^ 32 = normalised a.mant * 2 ^ 31 * 2 := by ring
      rw [h2, pow_one, Nat.mul_div_mul_right _ _ (by norm_num)]
    · intro hr
      rw [hexp]
      exact wrapInt32_of_range hr.1 hr.2

theorem float_div_agrees_with_u64_unless_equal_witness :
    (float_div ⟨48, 0⟩ ⟨98304, 0⟩).mant = 0 ∧ (float_div_u64 ⟨48, 0⟩ ⟨98304, 0⟩).mant = 2 ^ 32 :=
  ⟨((float_div_agrees_with_u64_unless_equal ⟨48, 0⟩ ⟨98304, 0⟩ (by decide) (by decide)
      (by decide) (by decide)).1 (by decide)).2.1,
   ((float_div_agrees_with_u64_unless_equal ⟨48, 0⟩ ⟨98304, 0⟩ (by decide) (by decide)
      (by decide) (by decide)).1 (by decide)).2.2.1⟩

/-! ## The correction sent when the tracker is stable -/

theorem get_Kp_of_uint32 (kp : kp_constants) (nominal : Nat) (h : nominal < 2 ^ 32) :
    get_Kp_for_i2s_buffer_control kp (wrapInt32 nominal)
      = if nominal = 44100 ∨ nominal = 48000 then kp.KP_I2S_BUF_CONTROL_FS48
        else if nominal = 88200 ∨ nominal = 96000 then kp.KP_I2S_BUF_CONTROL_FS96
        else if nominal = 176400 ∨ nominal = 192000 then kp.KP_I2S_BUF_CONTROL_FS192
        else 0 := by
  have e : ∀ v : Nat, v < 2 ^ 31 → (wrapInt32 nominal = (v : Int) ↔ nominal = v) := by
    intro v hv
    unfold wrapInt32
    omega
  unfold get_Kp_for_i2s_buffer_control
  have e1 := e 44100 (by norm_num)
  have e2 := e 48000 (by norm_num)
  have e3 := e 88200 (by norm_num)
  have e4 := e 96000 (by norm_num)
  have e5 := e 176400 (by norm_num)
  have e6 := e 192000 (by norm_num)
  simp only [Nat.cast_ofNat] at e1 e2 e3 e4 e5 e6
  simp only [e1, e2, e3, e4, e5, e6]

theorem total_error_of_stable (Kp : Int) (buf : buffer_calc_state_t)
    (hst : buf.flag_stable_avg = true)
    (hp : -2 ^ 63 ≤ Kp * (buf.avg_buffer_level - buf.stable_avg_level) ∧
      Kp * (buf.avg_buffer_level - buf.stable_avg_level) < 2 ^ 63)
    (hs : -2 ^ 63 ≤ Kp * (buf.avg_buffer_level - buf.stable_avg_level) * 2 ^ 8 ∧
      Kp * (buf.avg_buffer_level - buf.stable_avg_level) * 2 ^ 8 < 2 ^ 63) :
    total_error Kp buf
      = max (-(1500 * 2 ^ 32))
          (min (Kp * (buf.avg_buffer_level - buf.stable_avg_level) * 2 ^ 8) (1500 * 2 ^ 32)) := by
  unfold total_error
  rw [if_pos hst, max_allowed_correction_eq]
  simp only
  rw [wrapInt64_of_range hp.1 hp.2, wrapInt64_of_range hs.1 hs.2]
  split_ifs with h1 h2
  · rw [min_eq_right (by omega), max_eq_right (by norm_num)]
  · rw [min_eq_left (by omega), max_eq_left (by omega)]
  · rw [min_eq_left (by omega), max_eq_right (by omega)]

theorem total_error_of_zero_gain (buf : buffer_calc_state_t) : total_error 0 buf = 0 := by
  unfold total_error
  rw [max_allowed_correction_eq]
  split_ifs <;> simp_all [wrapInt64]

/-- Claim C22: with both rate mantissas non-zero, the playback interface open and the
tracker stable, the gain is `KP_I2S_BUF_CONTROL_FS48` for the nominal rates 44100 and 48000,
`_FS96` for 88200 and 96000, `_FS192` for 176400 and 192000 and 0 for every other one; the
ratio sent is `base + clamp ((Kp * (avg - stable)) << 8)` modulo `2 ^ 64`, the clamp being to
`±(1500 << 32)`, when the product and the shift fit 64 bits; and for a nominal rate outside
the three families it is the base ratio alone. -/
theorem stable_sends_clamped_correction (kp : kp_constants) (st : rate_server_state)
    (usb_rate_info : usb_to_i2s_rate_info_t) (drv : i2s_rate_readout)
    (hi : (determine_avg_I2S_rate_from_driver st.avg_I2S_rate drv).2.mant ≠ 0)
    (hu : usb_rate_info.usb_data_rate.mant ≠ 0)
    (hs : usb_rate_info.spkr_itf_open = true)
    (hst : st.g_i2s_send_buf_state.flag_stable_avg = true)
    (hnom : drv.nominal_sampling_rate < 2 ^ 32) :
    get_Kp_for_i2s_buffer_control kp (wrapInt32 drv.nominal_sampling_rate)
      = (if drv.nominal_sampling_rate = 44100 ∨ drv.nominal_sampling_rate = 48000 then
          kp.KP_I2S_BUF_CONTROL_FS48
        else if drv.nominal_sampling_rate = 88200 ∨ drv.nominal_sampling_rate = 96000 then
          kp.KP_I2S_BUF_CONTROL_FS96
        else if drv.nominal_sampling_rate = 176400 ∨ drv.nominal_sampling_rate = 192000 then
          kp.KP_I2S_BUF_CONTROL_FS192
        else 0) ∧
    (∀ Kp d : Int,
      Kp = get_Kp_for_i2s_buffer_control kp (wrapInt32 drv.nominal_sampling_rate) →
      d = st.g_i2s_send_buf_state.avg_buffer_level
          - st.g_i2s_send_buf_state.stable_avg_level →
      (-2 ^ 63 ≤ Kp * d ∧ Kp * d < 2 ^ 63) →
      (-2 ^ 63 ≤ Kp * d * 2 ^ 8 ∧ Kp * d * 2 ^ 8 < 2 ^ 63) →
      (((rate_server kp st usb_rate_info drv).2 : Nat) : Int)
        = ((float_div_u64_fixed_output_q_format usb_rate_info.usb_data_rate
              (determine_avg_I2S_rate_from_driver st.avg_I2S_rate drv).2 60 : Nat)
            + max (-(1500 * 2 ^ 32)) (min (Kp * d * 2 ^ 8) (1500 * 2 ^ 32))) % 2 ^ 64) ∧
    (¬ (drv.nominal_sampling_rate = 44100 ∨ drv.nominal_sampling_rate = 48000 ∨
        drv.nominal_sampling_rate = 88200 ∨ drv.nominal_sampling_rate = 96000 ∨
        drv.nominal_sampling_rate = 176400 ∨ drv.nominal_sampling_rate = 192000) →
      (rate_server kp st usb_rate_info drv).2
        = float_div_u64_fixed_output_q_format usb_rate_info.usb_data_rate
            (determine_avg_I2S_rate_from_driver st.avg_I2S_rate drv).2 60) := by
  have hKp := get_Kp_of_uint32 kp drv.nominal_sampling_rate hnom
  have hsent : (rate_server kp st usb_rate_info drv).2
      = toU64 ((float_div_u64_fixed_output_q_format usb_rate_info.usb_data_rate
            (determine_avg_I2S_rate_from_driver st.avg_I2S_rate drv).2 60 : Nat)
          + total_error (get_Kp_for_i2s_buffer_control kp (wrapInt32 drv.nominal_sampling_rate))
              st.g_i2s_send_buf_state) := by
    simp only [rate_server]
    rw [if_pos ⟨hi, hu, hs⟩]
    rfl
  refine ⟨hKp, ?_, ?_⟩
  · intro Kp d hK hd
    rw [hK, hd]
    intro hp hsh
    rw [hsent, total_error_of_stable _ _ hst hp hsh]
    unfold toU64
    exact Int.toNat_of_nonneg (Int.emod_nonneg _ (by norm_num))
  · intro hout
    have h0 : get_Kp_for_i2s_buffer_control kp (wrapInt32 drv.nominal_sampling_rate) = 0 := by
      rw [hKp]
      rw [if_neg (by omega), if_neg (by omega), if_neg (by omega)]
    rw [hsent, h0, total_error_of_zero_gain, add_zero]
    exact toU64_natCast_of_lt (float_div_u64_fixed_lt _ _ _)

theorem stable_sends_clamped_correction_witness :
    (rate_server ⟨1, 2, 3⟩
        { g_i2s_to_usb_rate_ratio := 0, g_spkr_itf_close_to_open := false,
          g_i2s_send_buf_state :=
            { init_calc_i2s_buffer_level_state with
                flag_stable_avg := true, avg_buffer_level := 900, stable_avg_level := 100 },
          prev_spkr_itf_open := true, usb_to_i2s_rate_ratio := 0,
          avg_I2S_rate := avg_I2S_rate_startup }
        { usb_data_rate := ⟨48001, 0⟩, spkr_itf_open := true, mic_itf_open := false,
          samples_to_host_buf_fill_level := 0, buffer_based_correction := 0 }
        { timespan := 100000, num_samples := 32, nominal_sampling_rate := 32000 }).2
      = float_div_u64_fixed_output_q_format ⟨48001, 0⟩
          (determine_avg_I2S_rate_from_driver avg_I2S_rate_startup
            { timespan := 100000, num_samples := 32, nominal_sampling_rate := 32000 }).2 60 :=
  (stable_sends_clamped_correction _ _ _ _ (by decide) (by decide) rfl rfl (by decide)).2.2
    (by decide)

/-! ## The windowed, twice-smoothed average -/

theorem feed_levels_snoc (s : buffer_calc_state_t) (ls : List Int) (l : Int) :
    feed_levels s (ls ++ [l]) = calc_avg_buffer_level (feed_levels s ls) l false := by
  rw [feed_levels_append]
  rfl

/-- The window bookkeeping after any run of calls from the initial state: the count, the two
window flags and the accumulated sum of the open window. -/
theorem tracker_window_state (W T : Int) (ls : List Int) :
    (feed_levels (init_calc_buffer_level_state W T) ls).window_len_log2 = W ∧
    (feed_levels (init_calc_buffer_level_state W T) ls).count
      = ((ls.length % 2 ^ W.toNat : Nat) : Int) ∧
    (feed_levels (init_calc_buffer_level_state W T) ls).flag_first_done
      = decide (1 ≤ ls.length / 2 ^ W.toNat) ∧
    (feed_levels (init_calc_buffer_level_state W T) ls).flag_prev_avg_valid
      = decide (2 ≤ ls.length / 2 ^ W.toNat) ∧
    (feed_levels (init_calc_buffer_level_state W T) ls).error_accum
      = (ls.drop (ls.length - ls.length % 2 ^ W.toNat)).sum := by
  have hm : 0 < 2 ^ W.toNat := Nat.two_pow_pos _
  induction ls using List.reverseRecOn with
  | nil =>
    refine ⟨rfl, ?_, ?_, ?_, ?_⟩ <;>
      simp [feed_levels, init_calc_buffer_level_state, Nat.div_eq_of_lt hm]
  | append_singleton ls l ih =>
    obtain ⟨hW, hcount, hfd, hpv, hacc⟩ := ih
    rw [feed_levels_snoc, List.length_append, List.length_singleton]
    generalize feed_levels (init_calc_buffer_level_state W T) ls = s at hW hcount hfd hpv hacc
    by_cases hb : ls.length % 2 ^ W.toNat + 1 = 2 ^ W.toNat
    · obtain ⟨hdiv, hmod⟩ := succ_div_mod_of_boundary ls.length _ hb
      have hb' : s.count + 1 = 2 ^ s.window_len_log2.toNat := by
        rw [hcount, hW]; exact_mod_cast hb
      obtain ⟨f1, -, f3, f4, f5, -, -, -⟩ := calc_at_boundary_fields s l hb'
      have facc : (calc_avg_buffer_level s l false).error_accum = 0 := by
        rw [calc_at_boundary s l hb']
      rw [hdiv, hmod]
      refine ⟨f1.trans hW, by rw [f3]; rfl, by rw [f4]; simp, ?_, ?_⟩
      · rw [f5, hfd, hpv, Bool.eq_iff_iff]
        simp only [Bool.or_eq_true, decide_eq_true_eq]
        omega
      · rw [facc, Nat.sub_zero, ← List.length_singleton l, ← List.length_append,
          List.drop_length]
        rfl
    · obtain ⟨hdiv, hmod⟩ := succ_div_mod_of_inside ls.length _ hm hb
      have hb' : s.count + 1 ≠ 2 ^ s.window_len_log2.toNat := by
        rw [hcount, hW]
        intro hc
        exact hb (by exact_mod_cast hc)
      rw [calc_inside_window s l hb', hdiv, hmod]
      refine ⟨hW, ?_, hfd, hpv, ?_⟩
      · show s.count + 1 = _
        rw [hcount]; push_cast; rfl
      · show s.error_accum + l = _
        have hk : ls.length + 1 - (ls.length % 2 ^ W.toNat + 1)
            = ls.length - ls.length % 2 ^ W.toNat := by omega
        rw [hk, List.drop_append_of_le_length (by omega), List.sum_append, hacc]
        simp

theorem first_boundary_iff (n m : Nat) (hb : n % m + 1 = m) :
    n + 1 = m ↔ ¬ (1 ≤ n / m) := by
  constructor
  · intro h
    have h0 : n / m = 0 := Nat.div_eq_of_lt (by omega)
    rw [h0]
    exact Nat.not_succ_le_zero 0
  · intro h
    have h1 : n / m = 0 := Nat.lt_one_iff.mp (not_le.mp h)
    have h2 := Nat.div_add_mod n m
    rw [h1, Nat.mul_zero, Nat.zero_add] at h2
    omega

/-- Claim C23: for a tracker initialised with window length `2 ^ W` and fed `reset = false`
levels `ls`, then `l`. After the call on `l` the count is in `[0, 2 ^ W)` and `error_accum`
is the sum of the levels received since the last boundary. When that call does not complete
a window the two averages are left as they are. When it does, count and `error_accum` are
zero, `prev_avg_buffer_level` is the average held before, and `avg_buffer_level` is the
window sum shifted right by `W`, alone at the first boundary and averaged with the previous
average, by truncating division, at every later one. -/
theorem windowed_average_by_call (W T : Int) (_hW : 0 ≤ W) (ls : List Int) (l : Int) :
    (0 ≤ (feed_levels (init_calc_buffer_level_state W T) (ls ++ [l])).count ∧
      (feed_levels (init_calc_buffer_level_state W T) (ls ++ [l])).count
        < ((2 ^ W.toNat : Nat) : Int) ∧
      (feed_levels (init_calc_buffer_level_state W T) (ls ++ [l])).error_accum
        = ((ls ++ [l]).drop
            (ls.length + 1 - (ls.length + 1) % 2 ^ W.toNat)).sum) ∧
    ((ls.length + 1) % 2 ^ W.toNat ≠ 0 →
      (feed_levels (init_calc_buffer_level_state W T) (ls ++ [l])).avg_buffer_level
        = (feed_levels (init_calc_buffer_level_state W T) ls).avg_buffer_level ∧
      (feed_levels (init_calc_buffer_level_state W T) (ls ++ [l])).prev_avg_buffer_level
        = (feed_levels (init_calc_buffer_level_state W T) ls).prev_avg_buffer_level) ∧
    ((ls.length + 1) % 2 ^ W.toNat = 0 →
      (feed_levels (init_calc_buffer_level_state W T) (ls ++ [l])).count = 0 ∧
      (feed_levels (init_calc_buffer_level_state W T) (ls ++ [l])).error_accum = 0 ∧
      (feed_levels (init_calc_buffer_level_state W T) (ls ++ [l])).prev_avg_buffer_level
        = (feed_levels (init_calc_buffer_level_state W T) ls).avg_buffer_level ∧
      (feed_levels (init_calc_buffer_level_state W T) (ls ++ [l])).avg_buffer_level
        = if ls.length + 1 = 2 ^ W.toNat then
            ((ls ++ [l]).drop (ls.length + 1 - 2 ^ W.toNat)).sum >>> W.toNat
          else
            (((ls ++ [l]).drop (ls.length + 1 - 2 ^ W.toNat)).sum >>> W.toNat
              + (feed_levels (init_calc_buffer_level_state W T) ls).avg_buffer_level).tdiv
              2) := by
  have hm : 0 < 2 ^ W.toNat := Nat.two_pow_pos _
  obtain ⟨-, hc', -, -, ha'⟩ := tracker_window_state W T (ls ++ [l])
  obtain ⟨hW, hcount, hfd, hpv, hacc⟩ := tracker_window_state W T ls
  rw [List.length_append, List.length_singleton] at hc' ha'
  have hlt := Nat.mod_lt (ls.length + 1) hm
  refine ⟨⟨by rw [hc']; positivity, by rw [hc']; exact_mod_cast hlt, ha'⟩, ?_, ?_⟩
  · intro hne
    have hb : ls.length % 2 ^ W.toNat + 1 ≠ 2 ^ W.toNat := by
      intro hb
      exact hne (succ_div_mod_of_boundary _ _ hb).2
    rw [feed_levels_snoc, calc_inside_window _ l (by
      rw [hcount, hW]
      intro hc
      exact hb (by exact_mod_cast hc))]
    exact ⟨rfl, rfl⟩
  · intro h0
    have hb : ls.length % 2 ^ W.toNat + 1 = 2 ^ W.toNat := by
      by_contra hb
      have := (succ_div_mod_of_inside _ _ hm hb).2
      omega
    have hb' : (feed_levels (init_calc_buffer_level_state W T) ls).count + 1
        = 2 ^ (feed_levels (init_calc_buffer_level_state W T) ls).window_len_log2.toNat := by
      rw [hcount, hW]; exact_mod_cast hb
    have hsum : (feed_levels (init_calc_buffer_level_state W T) ls).error_accum + l
        = ((ls ++ [l]).drop (ls.length + 1 - 2 ^ W.toNat)).sum := by
      have hk : ls.length + 1 - 2 ^ W.toNat = ls.length - ls.length % 2 ^ W.toNat := by
        omega
      rw [hk, List.drop_append_of_le_length (by omega), List.sum_append, hacc]
      simp
    have hfirst : (ls.length + 1 = 2 ^ W.toNat) ↔ ¬ (1 ≤ ls.length / 2 ^ W.toNat) :=
      first_boundary_iff _ _ hb
    rw [feed_levels_snoc, calc_at_boundary _ l hb']
    refine ⟨rfl, rfl, rfl, ?_⟩
    simp only [hfd, hpv, hW, hsum]
    by_cases h1 : 1 ≤ ls.length / 2 ^ W.toNat
    · rw [if_pos (show (decide (1 ≤ ls.length / 2 ^ W.toNat)
          || decide (2 ≤ ls.length / 2 ^ W.toNat)) = true by simp [h1]),
        if_neg (show ¬ (ls.length + 1 = 2 ^ W.toNat) by rw [hfirst]; exact not_not.mpr h1)]
    · have h2 : ¬ 2 ≤ ls.length / 2 ^ W.toNat := by omega
      rw [if_neg (show ¬ ((decide (1 ≤ ls.length / 2 ^ W.toNat)
          || decide (2 ≤ ls.length / 2 ^ W.toNat)) = true) by simp [h1, h2]),
        if_pos (hfirst.mpr h1)]

theorem windowed_average_by_call_witness :
    (feed_levels (init_calc_buffer_level_state 1 0)
        (([4, 8, 10] : List Int) ++ [20])).prev_avg_buffer_level
      = (feed_levels (init_calc_buffer_level_state 1 0)
          ([4, 8, 10] : List Int)).avg_buffer_level :=
  ((windowed_average_by_call 1 0 (by decide) [4, 8, 10] 20).2.2 (by decide)).2.2.1

/-! ## The 32-bit divider depends on the ratio only -/

/-- Two products of normalised mantissas that agree up to a power of two agree up to a
factor of at most two. -/
theorem normalised_ratio_cases (A B C D : Nat) (p q : Int)
    (hA : 2 ^ 31 ≤ A ∧ A < 2 ^ 32) (hB : 2 ^ 31 ≤ B ∧ B < 2 ^ 32)
    (hC : 2 ^ 31 ≤ C ∧ C < 2 ^ 32) (hD : 2 ^ 31 ≤ D ∧ D < 2 ^ 32)
    (h : (A : ℚ) * D * (2 : ℚ) ^ p = (B : ℚ) * C * (2 : ℚ) ^ q) :
    (p = q ∧ A * D = B * C) ∨ (p = q + 1 ∧ 2 * (A * D) = B * C) ∨
      (q = p + 1 ∧ A * D = 2 * (B * C)) := by
  have hAD : (2 : ℚ) ^ 62 ≤ (A : ℚ) * D := by
    have : 2 ^ 31 * 2 ^ 31 ≤ A * D := Nat.mul_le_mul hA.1 hD.1
    exact_mod_cast this
  have hAD' : (A : ℚ) * D < 2 ^ 64 := by
    have : A * D < 2 ^ 32 * 2 ^ 32 := Nat.mul_lt_mul'' hA.2 hD.2
    exact_mod_cast this
  have hBC : (2 : ℚ) ^ 62 ≤ (B : ℚ) * C := by
    have : 2 ^ 31 * 2 ^ 31 ≤ B * C := Nat.mul_le_mul hB.1 hC.1
    exact_mod_cast this
  have hBC' : (B : ℚ) * C < 2 ^ 64 := by
    have : B * C < 2 ^ 32 * 2 ^ 32 := Nat.mul_lt_mul'' hB.2 hC.2
    exact_mod_cast this
  have h2 : (2 : ℚ) ≠ 0 := by norm_num
  have hq : (0 : ℚ) < (2 : ℚ) ^ q := by positivity
  have hp : (0 : ℚ) < (2 : ℚ) ^ p := by positivity
  have hle : p ≤ q + 1 := by
    by_contra hc
    have hpow : (2 : ℚ) ^ (q + 2) ≤ (2 : ℚ) ^ p := zpow_le_zpow_right₀ (by norm_num) (by omega)
    rw [zpow_add₀ h2] at hpow
    have h4 : (2 : ℚ) ^ (2 : Int) = 4 := by norm_num
    rw [h4] at hpow
    nlinarith
  have hge : q ≤ p + 1 := by
    by_contra hc
    have hpow : (2 : ℚ) ^ (p + 2) ≤ (2 : ℚ) ^ q := zpow_le_zpow_right₀ (by norm_num) (by omega)
    rw [zpow_add₀ h2] at hpow
    have h4 : (2 : ℚ) ^ (2 : Int) = 4 := by norm_num
    rw [h4] at hpow
    nlinarith
  rcases (by omega : p = q ∨ p = q + 1 ∨ q = p + 1) with e | e | e
  · left
    refine ⟨e, ?_⟩
    rw [e] at h
    have := mul_right_cancel₀ hq.ne' h
    exact_mod_cast this
  · right; left
    refine ⟨e, ?_⟩
    rw [e, zpow_add₀ h2, zpow_one] at h
    have : (2 : ℚ) * ((A : ℚ) * D) = (B : ℚ) * C := by
      apply mul_right_cancel₀ hq.ne'
      linarith
    exact_mod_cast this
  · right; right
    refine ⟨e, ?_⟩
    rw [e, zpow_add₀ h2, zpow_one] at h
    have : (A : ℚ) * D = 2 * ((B : ℚ) * C) := by
      apply mul_right_cancel₀ hp.ne'
      linarith
    exact_mod_cast this

theorem nat_div_eq_of_cross (x y B D : Nat) (hB : 0 < B) (hD : 0 < D) (h : x * D = y * B) :
    x / B = y / D := by
  rw [← Nat.mul_div_mul_right x B hD, h, Nat.mul_comm B D, Nat.mul_div_mul_right y D hB]

theorem order_of_cross_eq (A B C D : Nat) (hB : 0 < B) (hD : 0 < D) (hm : A * D = B * C) :
    A > B ↔ C > D := by
  constructor
  · intro h
    have h1 : B * D < A * D := Nat.mul_lt_mul_of_pos_right h hD
    rw [hm] at h1
    exact Nat.lt_of_mul_lt_mul_left h1
  · intro h
    have h1 : B * D < B * C := Nat.mul_lt_mul_of_pos_left h hB
    rw [← hm] at h1
    exact Nat.lt_of_mul_lt_mul_right h1

theorem order_of_cross_double (A B C D : Nat) (hA : 2 ^ 31 ≤ A) (hB : B < 2 ^ 32)
    (hC : C < 2 ^ 32) (hD : 2 ^ 31 ≤ D) (hm : 2 * (A * D) = B * C) :
    ¬ A > B ∧ C > D := by
  constructor
  · intro h
    have h1 : B * (2 * D) < B * C := by
      calc B * (2 * D) = 2 * (B * D) := by ring
        _ < 2 * (A * D) := by
          have := Nat.mul_lt_mul_of_pos_right h (show 0 < D by omega)
          omega
        _ = B * C := hm
    have := Nat.lt_of_mul_lt_mul_left h1
    omega
  · by_contra h
    have hle : C ≤ D := by omega
    have h1 : (2 * A) * D ≤ B * D := by
      calc (2 * A) * D = 2 * (A * D) := by ring
        _ = B * C := hm
        _ ≤ B * D := Nat.mul_le_mul_left B hle
    have := Nat.le_of_mul_le_mul_right h1 (show 0 < D by omega)
    omega

theorem float_div_eq_of_ratio (a b c d : float_s32_t)
    (ha : a.mant ≠ 0) (ha32 : a.mant < 2 ^ 32) (hb : b.mant ≠ 0) (hb32 : b.mant < 2 ^ 32)
    (hc : c.mant ≠ 0) (hc32 : c.mant < 2 ^ 32) (hd : d.mant ≠ 0) (hd32 : d.mant < 2 ^ 32)
    (h : value a * value d = value b * value c) :
    (float_div a b).mant = (float_div c d).mant ∧
      (float_div a b).exp = (float_div c d).exp := by
  have hA := normalised_bounds ha ha32
  have hB := normalised_bounds hb hb32
  have hC := normalised_bounds hc hc32
  have hD := normalised_bounds hd hd32
  have h2 : (2 : ℚ) ≠ 0 := by norm_num
  have hcases := normalised_ratio_cases (normalised a.mant) (normalised b.mant)
    (normalised c.mant) (normalised d.mant)
    ((a.exp - clz a.mant) + (d.exp - clz d.mant))
    ((b.exp - clz b.mant) + (c.exp - clz c.mant)) hA hB hC hD (by
      rw [value_eq_normalised a, value_eq_normalised b, value_eq_normalised c,
        value_eq_normalised d] at h
      rw [zpow_add₀ h2, zpow_add₀ h2]
      linear_combination h)
  have hlab := float_div_lhs_eq a b ha ha32 hb hb32
  have hlcd := float_div_lhs_eq c d hc hc32 hd hd32
  rw [float_div_mant_eq, float_div_mant_eq, float_div_exp_eq, float_div_exp_eq,
    float_div_quotient_eq a b ha ha32 hb hb32, float_div_quotient_eq c d hc hc32 hd hd32]
  generalize normalised a.mant = A at hA hlab hcases ⊢
  generalize normalised b.mant = B at hB hlab hcases ⊢
  generalize normalised c.mant = C at hC hlcd hcases ⊢
  generalize normalised d.mant = D at hD hlcd hcases ⊢
  rcases hcases with ⟨he, hm⟩ | ⟨he, hm⟩ | ⟨he, hm⟩
  · have hord := order_of_cross_eq A B C D (by omega) (by omega) hm
    have hl : float_div_lhs a b = float_div_lhs c d := by
      rw [hlab, hlcd]
      by_cases hgt : A > B
      · rw [if_pos hgt, if_pos (hord.mp hgt)]
      · rw [if_neg hgt, if_neg (fun hn => hgt (hord.mpr hn))]
    constructor
    · refine congrArg u32 ?_
      rw [hl]
      apply nat_div_eq_of_cross _ _ _ _ (by omega) (by omega)
      calc A * 2 ^ float_div_lhs c d * D = A * D * 2 ^ float_div_lhs c d := by ring
        _ = B * C * 2 ^ float_div_lhs c d := by rw [hm]
        _ = C * 2 ^ float_div_lhs c d * B := by ring
    · refine congrArg wrapInt32 ?_
      rw [hl]
      omega
  · obtain ⟨h1, h3⟩ := order_of_cross_double A B C D hA.1 hB.2 hC.2 hD.1 hm
    rw [hlab, hlcd, if_neg h1, if_pos h3]
    constructor
    · refine congrArg u32 ?_
      apply nat_div_eq_of_cross _ _ _ _ (by omega) (by omega)
      calc A * 2 ^ 32 * D = 2 * (A * D) * 2 ^ 31 := by ring
        _ = B * C * 2 ^ 31 := by rw [hm]
        _ = C * 2 ^ 31 * B := by ring
    · refine congrArg wrapInt32 ?_
      push_cast
      omega
  · obtain ⟨h3, h1⟩ := order_of_cross_double C D A B hC.1 hD.2 hA.2 hB.1 (by
      rw [Nat.mul_comm C B, Nat.mul_comm D A]; exact hm.symm ▸ rfl)
    rw [hlab, hlcd, if_pos h1, if_neg h3]
    constructor
    · refine congrArg u32 ?_
      apply nat_div_eq_of_cross _ _ _ _ (by omega) (by omega)
      calc A * 2 ^ 31 * D = A * D * 2 ^ 31 := by ring
        _ = 2 * (B * C) * 2 ^ 31 := by rw [hm]
        _ = C * 2 ^ 32 * B := by ring
    · refine congrArg wrapInt32 ?_
      push_cast
      omega

/-- Claim C24: `float_div` depends only on the ratio of the values of its operands. For
operands with non-zero 32-bit mantissas such that `value a * value d = value b * value c`,
`float_div a b` and `float_div c d` have the same mantissa and the same exponent; in
particular `float_div {k * s, 0} {k * t, 0} = float_div {s, 0} {t, 0}` for non-zero `s`, `t`
and every `k ≥ 1` with `k * s` and `k * t` below `2 ^ 32`. -/
theorem float_div_depends_on_ratio_only :
    (∀ a b c d : float_s32_t,
      a.mant ≠ 0 → a.mant < 2 ^ 32 → b.mant ≠ 0 → b.mant < 2 ^ 32 →
      c.mant ≠ 0 → c.mant < 2 ^ 32 → d.mant ≠ 0 → d.mant < 2 ^ 32 →
      value a * value d = value b * value c →
      (float_div a b).mant = (float_div c d).mant ∧
        (float_div a b).exp = (float_div c d).exp) ∧
    (∀ k s t : Nat, 1 ≤ k → s ≠ 0 → t ≠ 0 → k * s < 2 ^ 32 → k * t < 2 ^ 32 →
      float_div { mant := k * s, exp := 0 } { mant := k * t, exp := 0 }
        = float_div { mant := s, exp := 0 } { mant := t, exp := 0 }) := by
  refine ⟨fun a b c d ha ha32 hb hb32 hc hc32 hd hd32 h =>
    float_div_eq_of_ratio a b c d ha ha32 hb hb32 hc hc32 hd hd32 h, ?_⟩
  intro k s t hk hs ht hks hkt
  have hk0 : k ≠ 0 := by omega
  have hs32 : s < 2 ^ 32 := lt_of_le_of_lt (Nat.le_mul_of_pos_left s (by omega)) hks
  have ht32 : t < 2 ^ 32 := lt_of_le_of_lt (Nat.le_mul_of_pos_left t (by omega)) hkt
  have h := float_div_eq_of_ratio { mant := k * s, exp := 0 } { mant := k * t, exp := 0 }
    { mant := s, exp := 0 } { mant := t, exp := 0 }
    (Nat.mul_ne_zero hk0 hs) hks (Nat.mul_ne_zero hk0 ht) hkt hs hs32 ht ht32 (by
      simp only [value, zpow_zero, mul_one]
      push_cast
      ring)
  rcases h1 : float_div { mant := k * s, exp := 0 } { mant := k * t, exp := 0 } with ⟨m1, e1⟩
  rcases h2 : float_div { mant := s, exp := 0 } { mant := t, exp := 0 } with ⟨m2, e2⟩
  rw [h1, h2] at h
  simp only at h
  rw [h.1, h.2]

theorem float_div_depends_on_ratio_only_witness :
    float_div { mant := 17 * 48, exp := 0 } { mant := 17 * 100000, exp := 0 }
      = float_div { mant := 48, exp := 0 } { mant := 100000, exp := 0 } :=
  float_div_depends_on_ratio_only.2 17 48 100000 (by decide) (by decide) (by decide)
    (by decide) (by decide)

end RateServer
